import Mathlib

/-!
Verification of the LocalMusicDashboard repository.

The development shallowly embeds the two scripts of the repository:

* `scrape_apple_100.py` — the chart fetcher (`scrape_apple_music_charts`)
  and the normalizing writer (`save_music_data_to_db`) that persists chart
  records into an SQLite database;
* `update_music_gsheet.py` — the sheet publisher, of which only the data
  cleaning step (pandas `fillna` followed by prepending the header row)
  carries verifiable content.

The HTTP layer, logging, and the spreadsheet client are external
collaborators; the embedding covers the pure data transformations and the
observable contents of the SQLite store.  The store is modelled as lists of
rows; SQLite conflict resolution (INSERT OR IGNORE on unique keys and on
NOT NULL columns, foreign key checks that raise and are caught by the
enclosing handler) is modelled explicitly in each insert operation.
-/

/-- A JSON value, as produced by `response.json()` in Python.  Numbers are
modelled as integers only; no claim depends on fractional numeric values.
Objects keep their fields as an ordered association list. -/
inductive JVal : Type where
  | null : JVal
  | bool (b : Bool) : JVal
  | num (n : Int) : JVal
  | str (s : String) : JVal
  | arr (xs : List JVal) : JVal
  | obj (fields : List (String × JVal)) : JVal

/-- Field access on a JSON object body, as Python `dict.get`: the first field
with the given key, or `none` when the key is missing. -/
def getKey (fields : List (String × JVal)) (k : String) : Option JVal :=
  fields.lookup k

/-- Surrounding-whitespace stripping on a character list, as Python
`str.strip()` restricted to ASCII whitespace. -/
def pyStrip (cs : List Char) : List Char :=
  ((cs.dropWhile Char.isWhitespace).reverse.dropWhile Char.isWhitespace).reverse

/-- Value of a run of ASCII digits read in base 10. -/
def digitsToNat (cs : List Char) : Nat :=
  cs.foldl (fun acc c => acc * 10 + (c.toNat - 48)) 0

/-- Models the Python builtin `int()` applied to a base-10 string, as used on
the `genreId` field: surrounding whitespace is stripped, one optional sign is
allowed, and the remainder must be a nonempty run of ASCII digits.  Unicode
digits, non-ASCII whitespace and grouping underscores, which CPython also
accepts, are not modelled; no claim depends on them.  Returns `none` where
Python raises `ValueError`. -/
def pythonInt (s : String) : Option Int :=
  match pyStrip s.data with
  | [] => none
  | c :: rest =>
    let neg := c = '-'
    let core := if c = '-' || c = '+' then rest else c :: rest
    if core.isEmpty || !core.all Char.isDigit then none
    else if neg then some (-(digitsToNat core : Int)) else some (digitsToNat core : Int)

/-- The constant `PLATFORM_NAME_MUSIC` of `scrape_apple_100.py`. -/
def PLATFORM_NAME_MUSIC : String := "AppleMusic"

/-- The constant `EXCLUDE_GENRE_ID` of `scrape_apple_100.py`: the sentinel
genre identifier (34, the generic "Music" tag) that is never linked into
`MusicGenres`. -/
def EXCLUDE_GENRE_ID : Int := 34

/-- One flat record appended to `records` by `scrape_apple_music_charts`.
The fields mirror the Python dict literal at lines 96-109 of
`scrape_apple_100.py`; fields extracted with `dict.get` keep the raw JSON
value and are `none` when the key is absent. -/
structure SRecord where
  platform : String
  region : String
  rank : Nat
  song_title : Option JVal
  artist_name : Option JVal
  apple_song_id : Option JVal
  apple_artist_id : Option JVal
  release_date : Option JVal
  artwork_url : Option JVal
  parsed_genres : JVal
  song_url : Option JVal
  date : String

/-- Builds the record for the entry at 0-based position `i` of the results
list, as the loop body at lines 88-109: the rank is `i + 1`, and
`parsed_genres` defaults to an empty JSON array when the `genres` key is
missing. -/
def mkSRecord (region today : String) (i : Nat) (o : List (String × JVal)) : SRecord :=
  { platform := PLATFORM_NAME_MUSIC
    region := region
    rank := i + 1
    song_title := getKey o "name"
    artist_name := getKey o "artistName"
    apple_song_id := getKey o "id"
    apple_artist_id := getKey o "artistId"
    release_date := getKey o "releaseDate"
    artwork_url := getKey o "artworkUrl100"
    parsed_genres := (getKey o "genres").getD (JVal.arr [])
    song_url := getKey o "url"
    date := today }

/-- The `for i, song_data in enumerate(results[:100])` loop of
`scrape_apple_music_charts`: entries that are not JSON objects are skipped
individually (their position still counts for the rank of later entries). -/
def flattenResults (region today : String) (results : List JVal) : List SRecord :=
  results.enum.filterMap fun p =>
    match p.2 with
    | JVal.obj o => some (mkSRecord region today p.1 o)
    | _ => none

/-- The parsing part of `scrape_apple_music_charts` (lines 75-109 of
`scrape_apple_100.py`), applied to the decoded JSON body of the HTTP
response.  A body that is not an object makes `data.get` raise, which the
enclosing handler catches, returning the empty record list; a missing,
falsy (empty), or non-dict `feed` and a missing, falsy, or non-list
`results` each return the empty list.  Only the first 100 results are
considered.  All exception paths of the Python function return the records
accumulated so far, so the embedding is a total function. -/
def scrape_apple_music_charts (region today : String) (body : JVal) : List SRecord :=
  match body with
  | JVal.obj fields =>
    match getKey fields "feed" with
    | some (JVal.obj ff) =>
      if ff.isEmpty then []
      else
        match getKey ff "results" with
        | some (JVal.arr results) =>
          if results.isEmpty then [] else flattenResults region today (results.take 100)
        | _ => []
    | _ => []
  | _ => []

/-- Extracts the `feed` object of a response body exactly when the checks at
lines 76-79 can see one: the body is an object and its `feed` field is an
object.  Used to state the error-handling claims. -/
def feedObj (body : JVal) : Option (List (String × JVal)) :=
  match body with
  | JVal.obj fields =>
    match getKey fields "feed" with
    | some (JVal.obj ff) => some ff
    | _ => none
  | _ => none

/-- Extracts the `results` list of a response body exactly when the checks at
lines 76-83 can see one: the feed is an object and its `results` field is a
list. -/
def resultsArr (body : JVal) : Option (List JVal) :=
  match feedObj body with
  | some ff =>
    match getKey ff "results" with
    | some (JVal.arr rs) => some rs
    | _ => none
  | none => none

/-- One genre tag of a record, as a dict with `genreId`, `name` and `url`
fields, each possibly absent. -/
structure GenreTag where
  genreId : Option String
  name : Option String
  url : Option String
deriving DecidableEq, Repr

/-- One record of the batch handed to `save_music_data_to_db`: the typed view
of the Python dict built by the scraper.  Fields read with `dict.get` are
`none` when absent.  `parsed_genres` is `none` when the stored value is not a
list (the `isinstance(genres_list, list)` check fails); a list element that is
not a dict is `none` (skipped by the `isinstance(genre_dict, dict)` check). -/
structure Record where
  platform : Option String
  region : Option String
  rank : Option Int
  song_title : Option String
  artist_name : Option String
  apple_song_id : Option String
  apple_artist_id : Option String
  release_date : Option String
  artwork_url : Option String
  parsed_genres : Option (List (Option GenreTag))
  song_url : Option String
  date : Option String
deriving DecidableEq, Repr

/-- One row of the `MusicTop100` table.  The autoincrement surrogate key is
represented by the position of the row in the list; `platform`, `region`,
`rank` and `date` are NOT NULL columns. -/
structure ChartRow where
  platform : String
  region : String
  rank : Int
  apple_song_id : Option String
  apple_artist_id : Option String
  release_date : Option String
  artwork_url : Option String
  song_url : Option String
  date : String
deriving DecidableEq, Repr

/-- One row of the `Genres` table: `genre_id` is the primary key and
`genre_name` carries a UNIQUE constraint. -/
structure GenreRow where
  gid : Int
  name : String
  url : Option String
deriving DecidableEq, Repr

/-- The observable contents of the SQLite store: the five tables created by
`save_music_data_to_db`.  `artists` and `songs` are association lists from the
external id (primary key) to the stored name; `links` is the `MusicGenres`
link table keyed by (song id, genre id). -/
structure DB where
  charts : List ChartRow
  artists : List (String × String)
  songs : List (String × String)
  genres : List GenreRow
  links : List (String × Int)
deriving DecidableEq, Repr

/-- The store just after the CREATE TABLE statements ran on a fresh database
file: every table exists and is empty. -/
def emptyDB : DB :=
  { charts := [], artists := [], songs := [], genres := [], links := [] }

/-- Strict lexicographic comparison of character lists by code point:
the comparison Python applies to `str` values with the `<` operator. -/
def charListLt : List Char → List Char → Bool
  | [], [] => false
  | [], _ :: _ => true
  | _ :: _, [] => false
  | a :: as, b :: bs => a.toNat < b.toNat || (a.toNat == b.toNat && charListLt as bs)

/-- Python ordinal string comparison `s < t`: lexicographic on code points. -/
def pyLt (s t : String) : Bool :=
  charListLt s.data t.data

/-- SQL `UPDATE tbl SET value WHERE key = k` on an association list: every row
whose key matches is rewritten.  Under the primary key constraint at most one
row matches. -/
def updAll (tbl : List (String × String)) (k v : String) : List (String × String) :=
  tbl.map fun p => if p.1 == k then (k, v) else p

/-- The minimum-name upsert of `save_music_data_to_db` (lines 201-213 for
artists, 216-228 for songs): look up the existing name for the key; insert
when absent; overwrite when the incoming name sorts strictly before the
stored one (Python ordinal string comparison, `pyLt`); otherwise leave the
table unchanged. -/
def minUpsert (tbl : List (String × String)) (k n : String) : List (String × String) :=
  match tbl.lookup k with
  | some existing => if pyLt n existing then updAll tbl k n else tbl
  | none => tbl ++ [(k, n)]

/-- The guard `if key_val and name_val:` around each upsert: Python truthiness
lets only a present, nonempty id and a present, nonempty name through. -/
def optMinUpsert (idv namev : Option String) (tbl : List (String × String)) :
    List (String × String) :=
  match idv, namev with
  | some k, some n => if k == "" || n == "" then tbl else minUpsert tbl k n
  | _, _ => tbl

/-- Does the chart table already hold a row with this (platform, region,
rank, date) key?  Mirrors the UNIQUE constraint of `MusicTop100`. -/
def hasKey (rows : List ChartRow) (p rg : String) (rk : Int) (d : String) : Bool :=
  rows.any fun c => c.platform == p && c.region == rg && c.rank == rk && c.date == d

/-- The `INSERT OR IGNORE INTO MusicTop100` statement (lines 239-244): a row
whose NOT NULL column would receive NULL is skipped by the IGNORE resolution,
as is a row whose unique key already exists; otherwise the row is appended. -/
def chartStep (r : Record) (rows : List ChartRow) : List ChartRow :=
  match r.platform, r.region, r.rank, r.date with
  | some p, some rg, some rk, some d =>
    if hasKey rows p rg rk d then rows
    else
      rows ++ [{ platform := p, region := rg, rank := rk,
                 apple_song_id := r.apple_song_id, apple_artist_id := r.apple_artist_id,
                 release_date := r.release_date, artwork_url := r.artwork_url,
                 song_url := r.song_url, date := d }]
  | _, _, _, _ => rows

/-- Does inserting (gid, nm) into `Genres` conflict with an existing row?
Either constraint fires: the primary key `genre_id` or the UNIQUE
`genre_name`. -/
def gConf (gs : List GenreRow) (gid : Int) (nm : String) : Bool :=
  gs.any fun g => g.gid == gid || g.name == nm

/-- The `INSERT OR IGNORE INTO Genres` statement (line 260): ignored on a
conflict with the `genre_id` primary key or the UNIQUE `genre_name`. -/
def genreInsert (gs : List GenreRow) (gid : Int) (nm : String) (url : Option String) :
    List GenreRow :=
  if gConf gs gid nm then gs else gs ++ [{ gid := gid, name := nm, url := url }]

/-- The `INSERT OR IGNORE INTO MusicGenres` statement (line 265).  The IGNORE
resolution does not cover foreign key violations: when `gid` has no row in
`Genres` (possible when the genre insert was ignored on a name conflict with
a different id), SQLite raises, the handler at lines 273-274 logs the error,
and no link row is written. -/
def linkInsert (gs : List GenreRow) (links : List (String × Int)) (sid : String) (gid : Int) :
    List (String × Int) :=
  if gs.any fun g => g.gid == gid then
    if links.any fun l => l.1 == sid && l.2 == gid then links else links ++ [(sid, gid)]
  else links

/-- The body of the `for genre_dict in genres_list` loop (lines 250-274),
acting on the pair (genres table, links table): non-dict tags are skipped; a
tag missing a truthy `genreId` or a truthy `name` is skipped; a `genreId`
that does not parse as an integer is skipped with a warning; otherwise the
genre row is inserted (or ignored) and, unless the id is the excluded
sentinel, the link row is inserted against the genres table as updated. -/
def processTag (sid : String) (st : List GenreRow × List (String × Int)) (t : Option GenreTag) :
    List GenreRow × List (String × Int) :=
  match t with
  | none => st
  | some tag =>
    match tag.genreId, tag.name with
    | some gidStr, some nm =>
      if gidStr == "" || nm == "" then st
      else
        match pythonInt gidStr with
        | none => st
        | some gid =>
          let gs := genreInsert st.1 gid nm tag.url
          if gid == EXCLUDE_GENRE_ID then (gs, st.2) else (gs, linkInsert gs st.2 sid gid)
    | _, _ => st

/-- The guard at line 249 and the genre loop: genres of a record are
processed only when the record carries a truthy `apple_song_id` and its
`parsed_genres` value is a list. -/
def recordTagsFold (r : Record) (st : List GenreRow × List (String × Int)) :
    List GenreRow × List (String × Int) :=
  match r.apple_song_id, r.parsed_genres with
  | some sid, some tags => if sid == "" then st else tags.foldl (processTag sid) st
  | _, _ => st

/-- Processing of one record inside the `for r in records` loop of
`save_music_data_to_db` (lines 190-279): the artist upsert, the song upsert,
the chart insert, and the genre loop.  The four steps touch disjoint parts of
the store except that the link inserts read the genres table, so the
sequential Python effects are reproduced exactly. -/
def processRecord (db : DB) (r : Record) : DB :=
  let gl := recordTagsFold r (db.genres, db.links)
  { charts := chartStep r db.charts
    artists := optMinUpsert r.apple_artist_id r.artist_name db.artists
    songs := optMinUpsert r.apple_song_id r.song_title db.songs
    genres := gl.1
    links := gl.2 }

/-- The record loop of `save_music_data_to_db` over a whole batch. -/
def saveRecords (records : List Record) (db : DB) : DB :=
  records.foldl processRecord db

/-- Connecting to the database file and running the CREATE TABLE IF NOT
EXISTS statements: an absent store (`none`, no file or no tables) becomes the
empty store, an existing store is kept. -/
def initStore : Option DB → DB
  | some d => d
  | none => emptyDB

/-- The whole of `save_music_data_to_db` (lines 123-292) at the level of
observable store contents: an empty batch returns before any connection is
opened, so an absent store stays absent; a nonempty batch opens the store,
creates the tables when missing, and folds the record loop over the batch. -/
def save_music_data_to_db (records : List Record) (store : Option DB) : Option DB :=
  if records.isEmpty then store else some (saveRecords records (initStore store))

/-- Contents of the `MusicTop100` table of a store file, empty when the file
or its tables do not exist. -/
def chartsOf : Option DB → List ChartRow
  | some d => d.charts
  | none => []

/-- Contents of the `Artists` table of a store file. -/
def artistsOf : Option DB → List (String × String)
  | some d => d.artists
  | none => []

/-- Contents of the `Songs` table of a store file. -/
def songsOf : Option DB → List (String × String)
  | some d => d.songs
  | none => []

/-- Contents of the `Genres` table of a store file. -/
def genresOf : Option DB → List GenreRow
  | some d => d.genres
  | none => []

/-- Contents of the `MusicGenres` table of a store file. -/
def linksOf : Option DB → List (String × Int)
  | some d => d.links
  | none => []

/-- One cell of a query result in the sheet publisher
(`update_music_gsheet.py`).  `null` stands for SQL NULL, which pandas reads
as None or NaN; text and integer values cover every cell the fixed queries
can produce (floating point NaN behaves as `null` under `fillna`). -/
inductive Cell : Type where
  | null : Cell
  | str (s : String) : Cell
  | int (n : Int) : Cell
deriving DecidableEq, Repr

/-- The `df.fillna` step at line 124 of `update_music_gsheet.py` applied to
one cell: a missing value becomes the empty string, every other value is
kept. -/
def fillCell : Cell → Cell
  | Cell.null => Cell.str ""
  | c => c

/-- The data cleaning step of `update_multiple_google_sheets` over the rows
read from the store for one query. -/
def fillna (rows : List (List Cell)) : List (List Cell) :=
  rows.map fun row => row.map fillCell

/-- The `data_to_write` value at line 129 of `update_music_gsheet.py`: the
header row (column names) prepended to the cleaned data rows.  This is the
exact value handed to `worksheet.update` for the destination tab. -/
def data_to_write (header : List String) (rows : List (List Cell)) : List (List Cell) :=
  (header.map Cell.str) :: fillna rows

/-! ### Order facts about the Python string comparison -/

/-- Pointwise relation between the rows of a name table before and after a
run: no row disappears, every pre-existing row keeps its key, and its name
either stays or strictly decreases in the Python string order. -/
def NameShrink (a b : List (String × String)) : Prop :=
  a.length ≤ b.length ∧
  ∀ (i : Nat) (p q : String × String), a[i]? = some p → b[i]? = some q →
    q.1 = p.1 ∧ (q.2 = p.2 ∨ pyLt q.2 p.2 = true)

/-- Effect of one genre tag on the `Genres` table alone. -/
def tagGenres (g : List GenreRow) (t : Option GenreTag) : List GenreRow :=
  match t with
  | none => g
  | some tag =>
    match tag.genreId, tag.name with
    | some gidStr, some nm =>
      if gidStr == "" || nm == "" then g
      else
        match pythonInt gidStr with
        | none => g
        | some gid => genreInsert g gid nm tag.url
    | _, _ => g

/-- Effect of one record on the `Genres` table alone. -/
def recordGenres (r : Record) (g : List GenreRow) : List GenreRow :=
  match r.apple_song_id, r.parsed_genres with
  | some sid, some tags => if sid == "" then g else tags.foldl tagGenres g
  | _, _ => g

/-- The `Artists` table after the batch. -/
def artistsSteps (rs : List Record) (tbl : List (String × String)) : List (String × String) :=
  rs.foldl (fun acc r => optMinUpsert r.apple_artist_id r.artist_name acc) tbl

/-- The `Songs` table after the batch. -/
def songsSteps (rs : List Record) (tbl : List (String × String)) : List (String × String) :=
  rs.foldl (fun acc r => optMinUpsert r.apple_song_id r.song_title acc) tbl

/-- The `MusicTop100` table after the batch. -/
def chartsSteps (rs : List Record) (c : List ChartRow) : List ChartRow :=
  rs.foldl (fun acc r => chartStep r acc) c

/-- The `Genres` table after the batch. -/
def genresSteps (rs : List Record) (g : List GenreRow) : List GenreRow :=
  rs.foldl (fun acc r => recordGenres r acc) g

/-- The chart table already holds a row for every key this record would
insert (vacuous when one of the NOT NULL fields is absent). -/
def ChartKeyCovered (r : Record) (c : List ChartRow) : Prop :=
  ∀ p rg rk d, r.platform = some p → r.region = some rg → r.rank = some rk →
    r.date = some d → hasKey c p rg rk d = true

/-- The genres table already conflicts with every insert this tag would
attempt. -/
def TagCovered (t : Option GenreTag) (g : List GenreRow) : Prop :=
  ∀ tag gs nm gid, t = some tag → tag.genreId = some gs → tag.name = some nm →
    (gs == "" || nm == "") = false → pythonInt gs = some gid → gConf g gid nm = true

/-- The genres table already conflicts with every insert this record would
attempt through its processed tags. -/
def RecordGenresCovered (r : Record) (g : List GenreRow) : Prop :=
  ∀ sid tags tag gs nm gid, r.apple_song_id = some sid → (sid == "") = false →
    r.parsed_genres = some tags → some tag ∈ tags → tag.genreId = some gs →
    tag.name = some nm → (gs == "" || nm == "") = false → pythonInt gs = some gid →
    gConf g gid nm = true

/-- The stored name for the key this (id, name) pair would upsert is already
at most the incoming name (vacuous when the guard rejects the pair). -/
def MinCovered (idv namev : Option String) (tbl : List (String × String)) : Prop :=
  ∀ a n, idv = some a → namev = some n → (a == "" || n == "") = false →
    ∃ m, tbl.lookup a = some m ∧ pyLt n m = false

/-- Well-formedness invariant the SQLite schema guarantees: the primary keys
of the `Artists` and `Songs` tables are unique. -/
def WFdb (d : DB) : Prop :=
  (d.artists.map Prod.fst).Nodup ∧ (d.songs.map Prod.fst).Nodup

/-- What one run of the writer may do to pre-existing rows: charts, genres
and links are only appended to; artist and song rows keep their keys and
their names only ever decrease. -/
def Preserved (s t : DB) : Prop :=
  (∃ e, t.charts = s.charts ++ e) ∧ (∃ e, t.genres = s.genres ++ e) ∧
  (∃ e, t.links = s.links ++ e) ∧ NameShrink s.artists t.artists ∧
  NameShrink s.songs t.songs

/-- The enumerate-and-flatten loop starting at position `n`, used to reason
about the ranks `flattenResults` assigns. -/
def flattenFrom (region today : String) (n : Nat) (l : List JVal) : List SRecord :=
  (List.enumFrom n l).filterMap fun p =>
    match p.2 with
    | JVal.obj o => some (mkSRecord region today p.1 o)
    | _ => none

/-- A record with every field absent: the Python dict with every value None
or missing.  Base value for the concrete records below. -/
def blankRecord : Record :=
  { platform := none, region := none, rank := none, song_title := none,
    artist_name := none, apple_song_id := none, apple_artist_id := none,
    release_date := none, artwork_url := none, parsed_genres := none,
    song_url := none, date := none }

/-- A well-formed genre tag with the given id string and name. -/
def mkTag (g n : String) : Option GenreTag :=
  some { genreId := some g, name := some n, url := none }

/-- First record of the non-idempotence batch: inserts genre 5 named Pop and
links song s1 to it. -/
def idemR1 : Record :=
  { blankRecord with apple_song_id := some "s1", parsed_genres := some [mkTag "5" "Pop"] }

/-- Second record: genre 7 also named Pop; the genre insert is ignored on the
name conflict, so the link insert for song s2 hits the foreign key check and
is dropped. -/
def idemR2 : Record :=
  { blankRecord with apple_song_id := some "s2", parsed_genres := some [mkTag "7" "Pop"] }

/-- Third record: genre 7 named Rock now inserts, so a second run can link
song s2 to genre 7 after all. -/
def idemR3 : Record :=
  { blankRecord with apple_song_id := some "s3", parsed_genres := some [mkTag "7" "Rock"] }

/-- The batch on which a second identical run changes the store. -/
def idemBatch : List Record := [idemR1, idemR2, idemR3]

/-- A record carrying a parseable genre tag but no song id: the guard at line
249 skips its genre processing entirely. -/
def orphanTagRecord : Record :=
  { blankRecord with parsed_genres := some [mkTag "15" "Pop"] }

/-- A record that encounters the sentinel genre tag (id 34, name Music) on a
record without a song id. -/
def sentinelOrphan : Record :=
  { blankRecord with parsed_genres := some [mkTag "34" "Music"] }

/-- Record observing artist a1 under the name Zed. -/
def zedRecord : Record :=
  { blankRecord with apple_artist_id := some "a1", artist_name := some "Zed" }

/-- Record observing artist a1 under the name Abba. -/
def abbaRecord : Record :=
  { blankRecord with apple_artist_id := some "a1", artist_name := some "Abba" }

/-- A record whose only genre tag has a non-numeric id. -/
def badTagRecord : Record :=
  { blankRecord with apple_song_id := some "s9", parsed_genres := some [mkTag "abc" "Pop"] }

/-- A record carrying the sentinel tag on a real song, for the C4 witness. -/
def sentinelSongRecord : Record :=
  { blankRecord with apple_song_id := some "s4", parsed_genres := some [mkTag "34" "Music"] }

/-- A record carrying an ordinary genre tag on a real song, for the C7
witness. -/
def normalTagRecord : Record :=
  { blankRecord with apple_song_id := some "s5", parsed_genres := some [mkTag "21" "Rock"] }

/-- Results list whose first entry is not an object: the kept entry gets
rank 2 while sitting at index 0 of the returned list. -/
def skewResults : List JVal := [JVal.null, JVal.obj []]

/-- Response body around `skewResults`. -/
def skewFields : List (String × JVal) :=
  [("feed", JVal.obj [("results", JVal.arr skewResults)])]

/-- A well-formed two-entry results list for the C3 witness. -/
def okResults : List JVal := [JVal.obj [], JVal.obj []]

/-- The feed object holding `okResults`. -/
def okFF : List (String × JVal) := [("results", JVal.arr okResults)]

/-- Response body around `okResults`. -/
def okFields : List (String × JVal) := [("feed", JVal.obj okFF)]

/-- A small well-formed store for the C8 witness: one artist and one song. -/
def smallDB : DB :=
  { charts := [], artists := [("a1", "Beta")], songs := [("s1", "Title")],
    genres := [], links := [] }

theorem charListLt_irrefl (l : List Char) : charListLt l l = false := by
  induction l with
  | nil => rfl
  | cons a as ih => simp [charListLt, ih]

theorem charListLt_trans {a b c : List Char} (h1 : charListLt a b = true)
    (h2 : charListLt b c = true) : charListLt a c = true := by
  induction a generalizing b c with
  | nil =>
    cases b with
    | nil => simp [charListLt] at h1
    | cons q qs =>
      cases c with
      | nil => simp [charListLt] at h2
      | cons r rs => simp [charListLt]
  | cons p ps ih =>
    cases b with
    | nil => simp [charListLt] at h1
    | cons q qs =>
      cases c with
      | nil => simp [charListLt] at h2
      | cons r rs =>
        simp only [charListLt, Bool.or_eq_true, Bool.and_eq_true, decide_eq_true_eq,
          beq_iff_eq] at h1 h2 ⊢
        rcases h1 with h1 | ⟨h1e, h1l⟩
        · rcases h2 with h2 | ⟨h2e, h2l⟩
          · exact Or.inl (lt_trans h1 h2)
          · exact Or.inl (h2e ▸ h1)
        · rcases h2 with h2 | ⟨h2e, h2l⟩
          · exact Or.inl (h1e ▸ h2)
          · exact Or.inr ⟨h1e.trans h2e, ih h1l h2l⟩

theorem pyLt_irrefl (s : String) : pyLt s s = false :=
  charListLt_irrefl s.data

theorem pyLt_trans {s t u : String} (h1 : pyLt s t = true) (h2 : pyLt t u = true) :
    pyLt s u = true :=
  charListLt_trans h1 h2

/-- The composition used when tracking the minimum-name invariant: a value
known to be at most `m` stays at most any later, not larger value. -/
theorem pyLt_false_step {n m m2 : String} (h : pyLt n m = false)
    (hm : m2 = m ∨ pyLt m2 m = true) : pyLt n m2 = false := by
  rcases hm with rfl | hm
  · exact h
  · by_contra hc
    have := pyLt_trans (Bool.of_not_eq_false hc ▸ rfl : pyLt n m2 = true) hm
    simp [this] at h

/-! ### Generic fold helpers -/

theorem foldl_id {α β : Type} (f : α → β → α) (b : α) (l : List β)
    (h : ∀ x ∈ l, f b x = b) : l.foldl f b = b := by
  induction l with
  | nil => rfl
  | cons x xs ih =>
    rw [List.foldl_cons, h x (List.mem_cons_self x xs)]
    exact ih fun y hy => h y (List.mem_cons_of_mem x hy)

theorem exists_append_trans {α : Type} {a b c : List α} (h1 : ∃ e, b = a ++ e)
    (h2 : ∃ e, c = b ++ e) : ∃ e, c = a ++ e := by
  obtain ⟨e1, rfl⟩ := h1
  obtain ⟨e2, rfl⟩ := h2
  exact ⟨e1 ++ e2, List.append_assoc a e1 e2⟩

theorem foldl_ext_append {α β : Type} (f : List α → β → List α)
    (hf : ∀ g t, ∃ e, f g t = g ++ e) (l : List β) (g : List α) :
    ∃ e, l.foldl f g = g ++ e := by
  induction l generalizing g with
  | nil => exact ⟨[], (List.append_nil g).symm⟩
  | cons t ts ih => exact exists_append_trans (hf g t) (ih (f g t))

/-! ### Association list lemmas for the Artists and Songs tables -/

theorem lookup_cons (k : String) (p : String × String) (t : List (String × String)) :
    ((p :: t).lookup k) = if k = p.1 then some p.2 else t.lookup k := by
  by_cases hk : k = p.1
  · simp [List.lookup, beq_iff_eq.mpr hk, hk]
  · simp [List.lookup, beq_eq_false_iff_ne.mpr hk, hk]

theorem updAll_cons (p : String × String) (t : List (String × String)) (k n : String) :
    updAll (p :: t) k n = (if p.1 = k then (k, n) else p) :: updAll t k n := by
  by_cases hk : p.1 = k
  · simp [updAll, beq_iff_eq.mpr hk, hk]
  · simp [updAll, beq_eq_false_iff_ne.mpr hk, hk]

theorem lookup_append_some {l l2 : List (String × String)} {k v : String}
    (h : l.lookup k = some v) : (l ++ l2).lookup k = some v := by
  induction l with
  | nil => simp [List.lookup] at h
  | cons p t ih =>
    rw [lookup_cons] at h
    rw [List.cons_append, lookup_cons]
    by_cases hk : k = p.1
    · simpa [hk] using h
    · rw [if_neg hk] at h ⊢
      exact ih h

theorem lookup_append_none {l l2 : List (String × String)} {k : String}
    (h : l.lookup k = none) : (l ++ l2).lookup k = l2.lookup k := by
  induction l with
  | nil => rfl
  | cons p t ih =>
    rw [lookup_cons] at h
    rw [List.cons_append, lookup_cons]
    by_cases hk : k = p.1
    · simp [hk] at h
    · rw [if_neg hk] at h ⊢
      exact ih h

theorem lookup_none_not_mem {l : List (String × String)} {k : String}
    (h : l.lookup k = none) : k ∉ l.map Prod.fst := by
  induction l with
  | nil => simp
  | cons p t ih =>
    rw [lookup_cons] at h
    by_cases hk : k = p.1
    · simp [hk] at h
    · rw [if_neg hk] at h
      simp only [List.map_cons, List.mem_cons]
      exact fun hc => hc.elim hk fun hm => ih h hm

theorem lookup_updAll_self {l : List (String × String)} {k v : String} (n : String)
    (h : l.lookup k = some v) : (updAll l k n).lookup k = some n := by
  induction l with
  | nil => simp [List.lookup] at h
  | cons p t ih =>
    rw [lookup_cons] at h
    rw [updAll_cons]
    by_cases hk : p.1 = k
    · rw [if_pos hk, lookup_cons, if_pos rfl]
    · rw [if_neg hk, lookup_cons, if_neg fun he => hk he.symm]
      rw [if_neg fun he => hk he.symm] at h
      exact ih h

theorem lookup_updAll_ne {l : List (String × String)} {a k : String} (n : String)
    (h : a ≠ k) : (updAll l k n).lookup a = l.lookup a := by
  induction l with
  | nil => rfl
  | cons p t ih =>
    rw [updAll_cons, lookup_cons, lookup_cons]
    by_cases hk : p.1 = k
    · have ha : a ≠ p.1 := fun he => h (he.trans hk)
      rw [if_pos hk]
      show (if a = k then some n else (updAll t k n).lookup a) = _
      rw [if_neg h, if_neg ha]
      exact ih
    · rw [if_neg hk]
      by_cases hap : a = p.1
      · rw [if_pos hap, if_pos hap]
      · rw [if_neg hap, if_neg hap]
        exact ih

theorem lookup_nodup_eq {l : List (String × String)} {k v : String}
    (hnd : (l.map Prod.fst).Nodup) (h : l.lookup k = some v) :
    ∀ p ∈ l, p.1 = k → p.2 = v := by
  induction l with
  | nil => simp
  | cons q t ih =>
    simp only [List.map_cons, List.nodup_cons] at hnd
    intro p hp hpk
    rw [lookup_cons] at h
    by_cases hk : k = q.1
    · rw [if_pos hk] at h
      rcases List.mem_cons.mp hp with rfl | hpt
      · exact Option.some.inj h
      · exact absurd (hk ▸ hpk ▸ List.mem_map_of_mem Prod.fst hpt) hnd.1
    · rw [if_neg hk] at h
      rcases List.mem_cons.mp hp with rfl | hpt
      · exact absurd hpk.symm hk
      · exact ih hnd.2 h p hpt hpk

/-! ### Properties of the minimum-name upsert -/

theorem minUpsert_covers_self (tbl : List (String × String)) (k n : String) :
    ∃ m, (minUpsert tbl k n).lookup k = some m ∧ pyLt n m = false := by
  cases h : tbl.lookup k with
  | none =>
    refine ⟨n, ?_, pyLt_irrefl n⟩
    simp only [minUpsert, h]
    rw [lookup_append_none h, lookup_cons]
    simp
  | some ex =>
    cases hlt : pyLt n ex with
    | true =>
      refine ⟨n, ?_, pyLt_irrefl n⟩
      simp only [minUpsert, h, hlt, if_true]
      exact lookup_updAll_self n h
    | false =>
      refine ⟨ex, ?_, hlt⟩
      simp only [minUpsert, h, hlt, if_false]
      exact h

theorem minUpsert_lookup_mono {tbl : List (String × String)} {a v : String} (k n : String)
    (h : tbl.lookup a = some v) :
    ∃ v2, (minUpsert tbl k n).lookup a = some v2 ∧ (v2 = v ∨ pyLt v2 v = true) := by
  cases hk2 : tbl.lookup k with
  | none =>
    refine ⟨v, ?_, Or.inl rfl⟩
    simp only [minUpsert, hk2]
    exact lookup_append_some h
  | some ex =>
    cases hlt : pyLt n ex with
    | true =>
      by_cases hak : a = k
      · subst hak
        have hve : v = ex := by rw [h] at hk2; exact Option.some.inj hk2
        refine ⟨n, ?_, Or.inr (hve ▸ hlt)⟩
        simp only [minUpsert, hk2, hlt, if_true]
        exact lookup_updAll_self n hk2
      · refine ⟨v, ?_, Or.inl rfl⟩
        simp only [minUpsert, hk2, hlt, if_true]
        rw [lookup_updAll_ne n hak]
        exact h
    | false =>
      refine ⟨v, ?_, Or.inl rfl⟩
      simp only [minUpsert, hk2, hlt, if_false]
      exact h

theorem minUpsert_id_of_covered {tbl : List (String × String)} {k n m : String}
    (h : tbl.lookup k = some m) (hlt : pyLt n m = false) : minUpsert tbl k n = tbl := by
  simp [minUpsert, h, hlt]

theorem keys_updAll (l : List (String × String)) (k n : String) :
    (updAll l k n).map Prod.fst = l.map Prod.fst := by
  induction l with
  | nil => rfl
  | cons p t ih =>
    rw [updAll_cons]
    by_cases hk : p.1 = k
    · simp [hk, ih]
    · simp [hk, ih]

theorem keys_minUpsert_nodup {l : List (String × String)} (k n : String)
    (hnd : (l.map Prod.fst).Nodup) : ((minUpsert l k n).map Prod.fst).Nodup := by
  cases h : l.lookup k with
  | none =>
    simp only [minUpsert, h, List.map_append]
    rw [List.nodup_append]
    exact ⟨hnd, List.nodup_singleton k, by
      intro x hx hx2
      simp at hx2
      exact lookup_none_not_mem h (hx2 ▸ hx)⟩
  | some ex =>
    cases hlt : pyLt n ex with
    | true => simpa only [minUpsert, h, hlt, if_true, keys_updAll] using hnd
    | false => simpa only [minUpsert, h, hlt, if_false] using hnd

theorem nameShrink_refl (a : List (String × String)) : NameShrink a a := by
  refine ⟨le_refl _, fun i p q hp hq => ?_⟩
  rw [hp] at hq
  cases Option.some.inj hq
  exact ⟨rfl, Or.inl rfl⟩

theorem nameShrink_trans {a b c : List (String × String)} (h1 : NameShrink a b)
    (h2 : NameShrink b c) : NameShrink a c := by
  refine ⟨h1.1.trans h2.1, fun i p r hp hr => ?_⟩
  have hi : i < a.length := (List.getElem?_eq_some_iff.mp hp).1
  have hib : i < b.length := lt_of_lt_of_le hi h1.1
  obtain ⟨q, hq⟩ : ∃ q, b[i]? = some q := by
    rw [List.getElem?_eq_getElem hib]
    exact ⟨_, rfl⟩
  obtain ⟨hk1, hv1⟩ := h1.2 i p q hp hq
  obtain ⟨hk2, hv2⟩ := h2.2 i q r hq hr
  refine ⟨hk2.trans hk1, ?_⟩
  rcases hv1 with hv1 | hv1
  · rcases hv2 with hv2 | hv2
    · exact Or.inl (hv2.trans hv1)
    · exact Or.inr (hv1 ▸ hv2)
  · rcases hv2 with hv2 | hv2
    · exact Or.inr (hv2 ▸ hv1)
    · exact Or.inr (pyLt_trans hv2 hv1)

theorem minUpsert_nameShrink {l : List (String × String)} (k n : String)
    (hnd : (l.map Prod.fst).Nodup) : NameShrink l (minUpsert l k n) := by
  cases h : l.lookup k with
  | none =>
    simp only [minUpsert, h]
    refine ⟨by simp, fun i p q hp hq => ?_⟩
    have hi : i < l.length := (List.getElem?_eq_some_iff.mp hp).1
    rw [List.getElem?_append_left hi] at hq
    rw [hp] at hq
    cases Option.some.inj hq
    exact ⟨rfl, Or.inl rfl⟩
  | some ex =>
    cases hlt : pyLt n ex with
    | true =>
      simp only [minUpsert, h, hlt, if_true]
      refine ⟨by simp [updAll], fun i p q hp hq => ?_⟩
      have hmem : p ∈ l := List.getElem?_mem hp
      rw [updAll, List.getElem?_map, hp, Option.map_some'] at hq
      by_cases hk : p.1 = k
      · simp only [beq_iff_eq.mpr hk, if_true] at hq
        cases Option.some.inj hq
        have hpv : p.2 = ex := lookup_nodup_eq hnd h p hmem hk
        exact ⟨hk.symm, Or.inr (hpv ▸ hlt)⟩
      · simp only [beq_eq_false_iff_ne.mpr hk, if_false] at hq
        cases Option.some.inj hq
        exact ⟨rfl, Or.inl rfl⟩
    | false =>
      simp only [minUpsert, h, hlt, if_false]
      exact nameShrink_refl l

/-! ### Componentwise views of the record loop

The four table groups evolve independently (the link inserts read the genres
table, but the genres evolution itself reads only the genres table), so each
component of `saveRecords` is a fold of a component step.  The following
definitions and projection lemmas make that decomposition explicit. -/

theorem processTag_fst (sid : String) (st : List GenreRow × List (String × Int))
    (t : Option GenreTag) : (processTag sid st t).1 = tagGenres st.1 t := by
  cases t with
  | none => rfl
  | some tag =>
    cases hgi : tag.genreId with
    | none => simp [processTag, tagGenres, hgi]
    | some gs =>
      cases hn : tag.name with
      | none => simp [processTag, tagGenres, hgi, hn]
      | some nm =>
        simp only [processTag, tagGenres, hgi, hn]
        cases hc : (gs == "" || nm == "") with
        | true => simp [hc]
        | false =>
          simp only [hc, Bool.false_eq_true, if_false]
          cases hp : pythonInt gs with
          | none => rfl
          | some gid =>
            cases hex : (gid == EXCLUDE_GENRE_ID) <;> simp [hex]

theorem foldl_processTag_fst (sid : String) (tags : List (Option GenreTag))
    (st : List GenreRow × List (String × Int)) :
    (tags.foldl (processTag sid) st).1 = tags.foldl tagGenres st.1 := by
  induction tags generalizing st with
  | nil => rfl
  | cons t ts ih => rw [List.foldl_cons, List.foldl_cons, ih, processTag_fst]

theorem recordTagsFold_fst (r : Record) (st : List GenreRow × List (String × Int)) :
    (recordTagsFold r st).1 = recordGenres r st.1 := by
  cases hs : r.apple_song_id with
  | none => simp [recordTagsFold, recordGenres, hs]
  | some sid =>
    cases hg : r.parsed_genres with
    | none => simp [recordTagsFold, recordGenres, hs, hg]
    | some tags =>
      simp only [recordTagsFold, recordGenres, hs, hg]
      cases hse : (sid == "") <;> simp [hse, foldl_processTag_fst]

theorem processRecord_charts (db : DB) (r : Record) :
    (processRecord db r).charts = chartStep r db.charts := rfl

theorem processRecord_artists (db : DB) (r : Record) :
    (processRecord db r).artists = optMinUpsert r.apple_artist_id r.artist_name db.artists := rfl

theorem processRecord_songs (db : DB) (r : Record) :
    (processRecord db r).songs = optMinUpsert r.apple_song_id r.song_title db.songs := rfl

theorem processRecord_genres (db : DB) (r : Record) :
    (processRecord db r).genres = recordGenres r db.genres :=
  recordTagsFold_fst r (db.genres, db.links)

theorem saveRecords_charts (rs : List Record) (db : DB) :
    (saveRecords rs db).charts = chartsSteps rs db.charts := by
  induction rs generalizing db with
  | nil => rfl
  | cons r ts ih =>
    show (saveRecords ts (processRecord db r)).charts = chartsSteps ts (chartStep r db.charts)
    rw [ih, processRecord_charts]

theorem saveRecords_artists (rs : List Record) (db : DB) :
    (saveRecords rs db).artists = artistsSteps rs db.artists := by
  induction rs generalizing db with
  | nil => rfl
  | cons r ts ih =>
    show (saveRecords ts (processRecord db r)).artists =
      artistsSteps ts (optMinUpsert r.apple_artist_id r.artist_name db.artists)
    rw [ih, processRecord_artists]

theorem saveRecords_songs (rs : List Record) (db : DB) :
    (saveRecords rs db).songs = songsSteps rs db.songs := by
  induction rs generalizing db with
  | nil => rfl
  | cons r ts ih =>
    show (saveRecords ts (processRecord db r)).songs =
      songsSteps ts (optMinUpsert r.apple_song_id r.song_title db.songs)
    rw [ih, processRecord_songs]

theorem saveRecords_genres (rs : List Record) (db : DB) :
    (saveRecords rs db).genres = genresSteps rs db.genres := by
  induction rs generalizing db with
  | nil => rfl
  | cons r ts ih =>
    show (saveRecords ts (processRecord db r)).genres = genresSteps ts (recordGenres r db.genres)
    rw [ih, processRecord_genres]

/-! ### The tables only grow: extension lemmas -/

theorem chartStep_ext (r : Record) (c : List ChartRow) : ∃ e, chartStep r c = c ++ e := by
  cases hp : r.platform with
  | none => exact ⟨[], by simp [chartStep, hp]⟩
  | some p =>
    cases hr : r.region with
    | none => exact ⟨[], by simp [chartStep, hp, hr]⟩
    | some rg =>
      cases hk : r.rank with
      | none => exact ⟨[], by simp [chartStep, hp, hr, hk]⟩
      | some rk =>
        cases hd : r.date with
        | none => exact ⟨[], by simp [chartStep, hp, hr, hk, hd]⟩
        | some d =>
          cases hhk : hasKey c p rg rk d with
          | true => exact ⟨[], by simp [chartStep, hp, hr, hk, hd, hhk]⟩
          | false =>
            have hrow : chartStep r c = c ++
                [{ platform := p, region := rg, rank := rk,
                   apple_song_id := r.apple_song_id, apple_artist_id := r.apple_artist_id,
                   release_date := r.release_date, artwork_url := r.artwork_url,
                   song_url := r.song_url, date := d }] := by
              simp [chartStep, hp, hr, hk, hd, hhk]
            exact ⟨_, hrow⟩

theorem genreInsert_ext (gs : List GenreRow) (gid : Int) (nm : String) (url : Option String) :
    ∃ e, genreInsert gs gid nm url = gs ++ e := by
  cases hc : gConf gs gid nm with
  | true => exact ⟨[], by simp [genreInsert, hc]⟩
  | false => exact ⟨[{ gid := gid, name := nm, url := url }], by simp [genreInsert, hc]⟩

theorem tagGenres_ext (g : List GenreRow) (t : Option GenreTag) :
    ∃ e, tagGenres g t = g ++ e := by
  match t with
  | none => exact ⟨[], by simp [tagGenres]⟩
  | some ⟨none, nv, u⟩ => exact ⟨[], by cases nv <;> simp [tagGenres]⟩
  | some ⟨some gs, none, u⟩ => exact ⟨[], by simp [tagGenres]⟩
  | some ⟨some gs, some nm, u⟩ =>
    cases hc : (gs == "" || nm == "") with
    | true => exact ⟨[], by simp [tagGenres, hc]⟩
    | false =>
      cases hpi : pythonInt gs with
      | none => exact ⟨[], by simp [tagGenres, hc, hpi]⟩
      | some gid =>
        obtain ⟨e, he⟩ := genreInsert_ext g gid nm u
        exact ⟨e, by simp [tagGenres, hc, hpi]; exact he⟩

theorem recordGenres_ext (r : Record) (g : List GenreRow) :
    ∃ e, recordGenres r g = g ++ e := by
  cases hs : r.apple_song_id with
  | none => exact ⟨[], by simp [recordGenres, hs]⟩
  | some sid =>
    cases hpg : r.parsed_genres with
    | none => exact ⟨[], by simp [recordGenres, hs, hpg]⟩
    | some tags =>
      cases hse : (sid == "") with
      | true => exact ⟨[], by simp [recordGenres, hs, hpg, hse]⟩
      | false =>
        obtain ⟨e, he⟩ := foldl_ext_append tagGenres tagGenres_ext tags g
        exact ⟨e, by simp [recordGenres, hs, hpg, hse]; exact he⟩

theorem linkInsert_ext (gs : List GenreRow) (links : List (String × Int)) (sid : String)
    (gid : Int) : ∃ e, linkInsert gs links sid gid = links ++ e := by
  cases h1 : (gs.any fun g => g.gid == gid) with
  | false => exact ⟨[], by simp [linkInsert, h1]⟩
  | true =>
    cases h2 : (links.any fun l => l.1 == sid && l.2 == gid) with
    | true => exact ⟨[], by simp [linkInsert, h1, h2]⟩
    | false => exact ⟨[(sid, gid)], by simp [linkInsert, h1, h2]⟩

theorem processTag_snd_ext (sid : String) (st : List GenreRow × List (String × Int))
    (t : Option GenreTag) : ∃ e, (processTag sid st t).2 = st.2 ++ e := by
  match t with
  | none => exact ⟨[], by simp [processTag]⟩
  | some ⟨none, nv, u⟩ => exact ⟨[], by cases nv <;> simp [processTag]⟩
  | some ⟨some gs, none, u⟩ => exact ⟨[], by simp [processTag]⟩
  | some ⟨some gs, some nm, u⟩ =>
    cases hc : (gs == "" || nm == "") with
    | true => exact ⟨[], by simp [processTag, hc]⟩
    | false =>
      cases hpi : pythonInt gs with
      | none => exact ⟨[], by simp [processTag, hc, hpi]⟩
      | some gid =>
        cases hex : (gid == EXCLUDE_GENRE_ID) with
        | true => exact ⟨[], by simp [processTag, hc, hpi, hex]⟩
        | false =>
          obtain ⟨e, he⟩ := linkInsert_ext (genreInsert st.1 gid nm u) st.2 sid gid
          exact ⟨e, by simp [processTag, hc, hpi, hex]; exact he⟩

theorem foldl_processTag_snd_ext (sid : String) (tags : List (Option GenreTag))
    (st : List GenreRow × List (String × Int)) :
    ∃ e, (tags.foldl (processTag sid) st).2 = st.2 ++ e := by
  induction tags generalizing st with
  | nil => exact ⟨[], by simp⟩
  | cons t ts ih =>
    rw [List.foldl_cons]
    exact exists_append_trans (processTag_snd_ext sid st t) (ih (processTag sid st t))

theorem recordTagsFold_snd_ext (r : Record) (st : List GenreRow × List (String × Int)) :
    ∃ e, (recordTagsFold r st).2 = st.2 ++ e := by
  cases hs : r.apple_song_id with
  | none => exact ⟨[], by simp [recordTagsFold, hs]⟩
  | some sid =>
    cases hpg : r.parsed_genres with
    | none => exact ⟨[], by simp [recordTagsFold, hs, hpg]⟩
    | some tags =>
      cases hse : (sid == "") with
      | true => exact ⟨[], by simp [recordTagsFold, hs, hpg, hse]⟩
      | false =>
        obtain ⟨e, he⟩ := foldl_processTag_snd_ext sid tags st
        exact ⟨e, by simp [recordTagsFold, hs, hpg, hse]; exact he⟩

theorem processRecord_links_ext (db : DB) (r : Record) :
    ∃ e, (processRecord db r).links = db.links ++ e :=
  recordTagsFold_snd_ext r (db.genres, db.links)

theorem saveRecords_links_ext (rs : List Record) (db : DB) :
    ∃ e, (saveRecords rs db).links = db.links ++ e := by
  induction rs generalizing db with
  | nil => exact ⟨[], by simp [saveRecords]⟩
  | cons r ts ih =>
    exact exists_append_trans (processRecord_links_ext db r) (ih (processRecord db r))

/-! ### New links never carry the excluded genre id -/

theorem linkInsert_mem {gs : List GenreRow} {links : List (String × Int)} {sid : String}
    {gid : Int} {p : String × Int} (h : p ∈ linkInsert gs links sid gid) :
    p ∈ links ∨ p = (sid, gid) := by
  cases h1 : (gs.any fun g => g.gid == gid) with
  | false =>
    simp only [linkInsert, h1, Bool.false_eq_true, if_false] at h
    exact Or.inl h
  | true =>
    cases h2 : (links.any fun l => l.1 == sid && l.2 == gid) with
    | true =>
      simp only [linkInsert, h1, h2, if_true] at h
      exact Or.inl h
    | false =>
      simp only [linkInsert, h1, h2, Bool.false_eq_true, if_false, if_true] at h
      rcases List.mem_append.mp h with hm | hm
      · exact Or.inl hm
      · exact Or.inr (by simpa using hm)

theorem processTag_snd_mem {sid : String} {st : List GenreRow × List (String × Int)}
    {t : Option GenreTag} {p : String × Int} (h : p ∈ (processTag sid st t).2) :
    p ∈ st.2 ∨ p.2 ≠ EXCLUDE_GENRE_ID := by
  match t with
  | none => exact Or.inl h
  | some ⟨none, nv, u⟩ =>
    cases nv <;> simp only [processTag] at h <;> exact Or.inl h
  | some ⟨some gs, none, u⟩ =>
    simp only [processTag] at h
    exact Or.inl h
  | some ⟨some gs, some nm, u⟩ =>
    cases hc : (gs == "" || nm == "") with
    | true =>
      simp only [processTag, hc, if_true] at h
      exact Or.inl h
    | false =>
      simp only [processTag, hc, Bool.false_eq_true, if_false] at h
      cases hpi : pythonInt gs with
      | none =>
        rw [hpi] at h
        exact Or.inl h
      | some gid =>
        rw [hpi] at h
        cases hex : (gid == EXCLUDE_GENRE_ID) with
        | true =>
          simp only [hex, if_true] at h
          exact Or.inl h
        | false =>
          simp only [hex, Bool.false_eq_true, if_false] at h
          rcases linkInsert_mem h with hm | hm
          · exact Or.inl hm
          · exact Or.inr (hm ▸ beq_eq_false_iff_ne.mp hex)

theorem foldl_processTag_snd_mem {sid : String} {tags : List (Option GenreTag)}
    {st : List GenreRow × List (String × Int)} {p : String × Int}
    (h : p ∈ (tags.foldl (processTag sid) st).2) : p ∈ st.2 ∨ p.2 ≠ EXCLUDE_GENRE_ID := by
  induction tags generalizing st with
  | nil => exact Or.inl h
  | cons t ts ih =>
    rw [List.foldl_cons] at h
    rcases ih h with hm | hm
    · exact processTag_snd_mem hm
    · exact Or.inr hm

theorem recordTagsFold_snd_mem {r : Record} {st : List GenreRow × List (String × Int)}
    {p : String × Int} (h : p ∈ (recordTagsFold r st).2) :
    p ∈ st.2 ∨ p.2 ≠ EXCLUDE_GENRE_ID := by
  cases hs : r.apple_song_id with
  | none =>
    simp only [recordTagsFold, hs] at h
    exact Or.inl h
  | some sid =>
    cases hpg : r.parsed_genres with
    | none =>
      simp only [recordTagsFold, hs, hpg] at h
      exact Or.inl h
    | some tags =>
      cases hse : (sid == "") with
      | true =>
        simp only [recordTagsFold, hs, hpg, hse, if_true] at h
        exact Or.inl h
      | false =>
        simp only [recordTagsFold, hs, hpg, hse, Bool.false_eq_true, if_false] at h
        exact foldl_processTag_snd_mem h

theorem processRecord_links_mem {db : DB} {r : Record} {p : String × Int}
    (h : p ∈ (processRecord db r).links) : p ∈ db.links ∨ p.2 ≠ EXCLUDE_GENRE_ID := by
  have h2 : p ∈ (recordTagsFold r (db.genres, db.links)).2 := h
  exact recordTagsFold_snd_mem h2

theorem saveRecords_links_mem {rs : List Record} {db : DB} {p : String × Int}
    (h : p ∈ (saveRecords rs db).links) : p ∈ db.links ∨ p.2 ≠ EXCLUDE_GENRE_ID := by
  induction rs generalizing db with
  | nil => exact Or.inl h
  | cons r ts ih =>
    rcases ih h with hm | hm
    · exact processRecord_links_mem hm
    · exact Or.inr hm

/-! ### Chart insert idempotence machinery -/

theorem hasKey_append {c : List ChartRow} {p rg : String} {rk : Int} {d : String}
    (e : List ChartRow) (h : hasKey c p rg rk d = true) : hasKey (c ++ e) p rg rk d = true := by
  simp only [hasKey, List.any_append, Bool.or_eq_true]
  exact Or.inl h

theorem chartKeyCovered_ext {r : Record} {c c2 : List ChartRow} (h : ChartKeyCovered r c)
    (hext : ∃ e, c2 = c ++ e) : ChartKeyCovered r c2 := by
  obtain ⟨e, rfl⟩ := hext
  intro p rg rk d hp hr hk hd
  exact hasKey_append e (h p rg rk d hp hr hk hd)

theorem chartStep_covers_self (r : Record) (c : List ChartRow) :
    ChartKeyCovered r (chartStep r c) := by
  intro p rg rk d hp hr hk hd
  cases hhk : hasKey c p rg rk d with
  | true => simp [chartStep, hp, hr, hk, hd, hhk]
  | false =>
    have hrow : chartStep r c = c ++
        [{ platform := p, region := rg, rank := rk,
           apple_song_id := r.apple_song_id, apple_artist_id := r.apple_artist_id,
           release_date := r.release_date, artwork_url := r.artwork_url,
           song_url := r.song_url, date := d }] := by
      simp [chartStep, hp, hr, hk, hd, hhk]
    rw [hrow]
    simp [hasKey, List.any_append]

theorem chartStep_id_of_covered {r : Record} {c : List ChartRow} (h : ChartKeyCovered r c) :
    chartStep r c = c := by
  cases hp : r.platform with
  | none => simp [chartStep, hp]
  | some p =>
    cases hr : r.region with
    | none => simp [chartStep, hp, hr]
    | some rg =>
      cases hk : r.rank with
      | none => simp [chartStep, hp, hr, hk]
      | some rk =>
        cases hd : r.date with
        | none => simp [chartStep, hp, hr, hk, hd]
        | some d => simp [chartStep, hp, hr, hk, hd, h p rg rk d hp hr hk hd]

theorem chartsSteps_covers (rs : List Record) (c : List ChartRow) :
    ∀ r ∈ rs, ChartKeyCovered r (chartsSteps rs c) := by
  induction rs generalizing c with
  | nil => intro r h; cases h
  | cons r2 ts ih =>
    intro r hmem
    rcases List.mem_cons.mp hmem with rfl | hts
    · exact chartKeyCovered_ext (chartStep_covers_self r c)
        (foldl_ext_append _ (fun g t => chartStep_ext t g) ts (chartStep r c))
    · exact ih (chartStep r2 c) r hts

theorem chartsSteps_id_of_covered {rs : List Record} {c : List ChartRow}
    (h : ∀ r ∈ rs, ChartKeyCovered r c) : chartsSteps rs c = c :=
  foldl_id _ c rs fun r hr => chartStep_id_of_covered (h r hr)

theorem chartsSteps_idem (rs : List Record) (c : List ChartRow) :
    chartsSteps rs (chartsSteps rs c) = chartsSteps rs c :=
  chartsSteps_id_of_covered (chartsSteps_covers rs c)

/-! ### Genre insert idempotence machinery -/

theorem gConf_append {g : List GenreRow} {gid : Int} {nm : String} (e : List GenreRow)
    (h : gConf g gid nm = true) : gConf (g ++ e) gid nm = true := by
  simp only [gConf, List.any_append, Bool.or_eq_true]
  exact Or.inl h

theorem tagCovered_ext {t : Option GenreTag} {g g2 : List GenreRow} (h : TagCovered t g)
    (hext : ∃ e, g2 = g ++ e) : TagCovered t g2 := by
  obtain ⟨e, rfl⟩ := hext
  intro tag gs nm gid ht hgi hn hc hpi
  exact gConf_append e (h tag gs nm gid ht hgi hn hc hpi)

theorem gConf_genreInsert_self (g : List GenreRow) (gid : Int) (nm : String)
    (url : Option String) : gConf (genreInsert g gid nm url) gid nm = true := by
  cases hc : gConf g gid nm with
  | true => simp [genreInsert, hc]
  | false =>
    simp only [genreInsert, hc, Bool.false_eq_true, if_false]
    simp [gConf, List.any_append]

theorem tagGenres_covers_self (t : Option GenreTag) (g : List GenreRow) :
    TagCovered t (tagGenres g t) := by
  intro tag gs nm gid ht hgi hn hc hpi
  subst ht
  have heq : tagGenres g (some tag) = genreInsert g gid nm tag.url := by
    obtain ⟨gi, nv, u⟩ := tag
    simp only at hgi hn
    subst hgi
    subst hn
    simp [tagGenres, hc, hpi]
  rw [heq]
  exact gConf_genreInsert_self g gid nm tag.url

theorem tagGenres_id_of_covered {t : Option GenreTag} {g : List GenreRow}
    (h : TagCovered t g) : tagGenres g t = g := by
  match t with
  | none => rfl
  | some ⟨none, nv, u⟩ => cases nv <;> simp [tagGenres]
  | some ⟨some gs, none, u⟩ => simp [tagGenres]
  | some ⟨some gs, some nm, u⟩ =>
    cases hc : (gs == "" || nm == "") with
    | true => simp [tagGenres, hc]
    | false =>
      cases hpi : pythonInt gs with
      | none => simp [tagGenres, hc, hpi]
      | some gid =>
        have hconf : gConf g gid nm = true := h ⟨some gs, some nm, u⟩ gs nm gid rfl rfl rfl hc hpi
        simp [tagGenres, hc, hpi, genreInsert, hconf]

theorem foldl_tagGenres_covers (tags : List (Option GenreTag)) (g : List GenreRow) :
    ∀ t ∈ tags, TagCovered t (tags.foldl tagGenres g) := by
  induction tags generalizing g with
  | nil => intro t h; cases h
  | cons t2 ts ih =>
    intro t hmem
    rcases List.mem_cons.mp hmem with rfl | hts
    · exact tagCovered_ext (tagGenres_covers_self t g)
        (foldl_ext_append tagGenres tagGenres_ext ts (tagGenres g t))
    · exact ih (tagGenres g t2) t hts

theorem recordGenresCovered_ext {r : Record} {g g2 : List GenreRow}
    (h : RecordGenresCovered r g) (hext : ∃ e, g2 = g ++ e) : RecordGenresCovered r g2 := by
  obtain ⟨e, rfl⟩ := hext
  intro sid tags tag gs nm gid hsid hse hpg hmem hgi hn hc hpi
  exact gConf_append e (h sid tags tag gs nm gid hsid hse hpg hmem hgi hn hc hpi)

theorem recordGenres_covers_self (r : Record) (g : List GenreRow) :
    RecordGenresCovered r (recordGenres r g) := by
  intro sid tags tag gs nm gid hsid hse hpg hmem hgi hn hc hpi
  have heq : recordGenres r g = tags.foldl tagGenres g := by
    simp [recordGenres, hsid, hpg, hse]
  rw [heq]
  exact foldl_tagGenres_covers tags g (some tag) hmem tag gs nm gid rfl hgi hn hc hpi

theorem recordGenres_id_of_covered {r : Record} {g : List GenreRow}
    (h : RecordGenresCovered r g) : recordGenres r g = g := by
  cases hsid : r.apple_song_id with
  | none => simp [recordGenres, hsid]
  | some sid =>
    cases hpg : r.parsed_genres with
    | none => simp [recordGenres, hsid, hpg]
    | some tags =>
      cases hse : (sid == "") with
      | true => simp [recordGenres, hsid, hpg, hse]
      | false =>
        have hfold : tags.foldl tagGenres g = g := by
          apply foldl_id
          intro t hmem
          apply tagGenres_id_of_covered
          intro tag gs nm gid ht hgi hn hc hpi
          exact h sid tags tag gs nm gid hsid hse hpg (ht ▸ hmem) hgi hn hc hpi
        simp [recordGenres, hsid, hpg, hse, hfold]

theorem genresSteps_covers (rs : List Record) (g : List GenreRow) :
    ∀ r ∈ rs, RecordGenresCovered r (genresSteps rs g) := by
  induction rs generalizing g with
  | nil => intro r h; cases h
  | cons r2 ts ih =>
    intro r hmem
    rcases List.mem_cons.mp hmem with rfl | hts
    · exact recordGenresCovered_ext (recordGenres_covers_self r g)
        (foldl_ext_append _ (fun g2 t => recordGenres_ext t g2) ts (recordGenres r g))
    · exact ih (recordGenres r2 g) r hts

theorem genresSteps_id_of_covered {rs : List Record} {g : List GenreRow}
    (h : ∀ r ∈ rs, RecordGenresCovered r g) : genresSteps rs g = g :=
  foldl_id _ g rs fun r hr => recordGenres_id_of_covered (h r hr)

theorem genresSteps_idem (rs : List Record) (g : List GenreRow) :
    genresSteps rs (genresSteps rs g) = genresSteps rs g :=
  genresSteps_id_of_covered (genresSteps_covers rs g)

/-! ### Minimum-name upsert idempotence machinery -/

theorem optMinUpsert_covers_self (idv namev : Option String) (tbl : List (String × String)) :
    MinCovered idv namev (optMinUpsert idv namev tbl) := by
  intro a n ha hn hc
  subst ha
  subst hn
  simp only [optMinUpsert, hc, Bool.false_eq_true, if_false]
  exact minUpsert_covers_self tbl a n

theorem optMinUpsert_lookup_mono {tbl : List (String × String)} {a v : String}
    (idv namev : Option String) (h : tbl.lookup a = some v) :
    ∃ v2, (optMinUpsert idv namev tbl).lookup a = some v2 ∧ (v2 = v ∨ pyLt v2 v = true) := by
  match idv, namev with
  | none, _ => exact ⟨v, h, Or.inl rfl⟩
  | some k, none => exact ⟨v, h, Or.inl rfl⟩
  | some k, some n =>
    cases hc : (k == "" || n == "") with
    | true =>
      simp only [optMinUpsert, hc, if_true]
      exact ⟨v, h, Or.inl rfl⟩
    | false =>
      simp only [optMinUpsert, hc, Bool.false_eq_true, if_false]
      exact minUpsert_lookup_mono k n h

theorem minCovered_step {idv namev idv2 namev2 : Option String}
    {tbl : List (String × String)} (h : MinCovered idv namev tbl) :
    MinCovered idv namev (optMinUpsert idv2 namev2 tbl) := by
  intro a n ha hn hc
  obtain ⟨m, hm, hlt⟩ := h a n ha hn hc
  obtain ⟨v2, hv2, hch⟩ := optMinUpsert_lookup_mono idv2 namev2 hm
  exact ⟨v2, hv2, pyLt_false_step hlt hch⟩

theorem optMinUpsert_id_of_covered {idv namev : Option String} {tbl : List (String × String)}
    (h : MinCovered idv namev tbl) : optMinUpsert idv namev tbl = tbl := by
  match idv, namev with
  | none, _ => rfl
  | some k, none => rfl
  | some k, some n =>
    cases hc : (k == "" || n == "") with
    | true => simp [optMinUpsert, hc]
    | false =>
      obtain ⟨m, hm, hlt⟩ := h k n rfl rfl hc
      simp only [optMinUpsert, hc, Bool.false_eq_true, if_false]
      exact minUpsert_id_of_covered hm hlt

theorem artistsSteps_minCovered_mono {idv namev : Option String} (rs : List Record)
    {tbl : List (String × String)} (h : MinCovered idv namev tbl) :
    MinCovered idv namev (artistsSteps rs tbl) := by
  induction rs generalizing tbl with
  | nil => exact h
  | cons r ts ih => exact ih (minCovered_step h)

theorem songsSteps_minCovered_mono {idv namev : Option String} (rs : List Record)
    {tbl : List (String × String)} (h : MinCovered idv namev tbl) :
    MinCovered idv namev (songsSteps rs tbl) := by
  induction rs generalizing tbl with
  | nil => exact h
  | cons r ts ih => exact ih (minCovered_step h)

theorem artistsSteps_covers (rs : List Record) (tbl : List (String × String)) :
    ∀ r ∈ rs, MinCovered r.apple_artist_id r.artist_name (artistsSteps rs tbl) := by
  induction rs generalizing tbl with
  | nil => intro r h; cases h
  | cons r2 ts ih =>
    intro r hmem
    rcases List.mem_cons.mp hmem with rfl | hts
    · exact artistsSteps_minCovered_mono ts
        (optMinUpsert_covers_self r.apple_artist_id r.artist_name tbl)
    · exact ih (optMinUpsert r2.apple_artist_id r2.artist_name tbl) r hts

theorem songsSteps_covers (rs : List Record) (tbl : List (String × String)) :
    ∀ r ∈ rs, MinCovered r.apple_song_id r.song_title (songsSteps rs tbl) := by
  induction rs generalizing tbl with
  | nil => intro r h; cases h
  | cons r2 ts ih =>
    intro r hmem
    rcases List.mem_cons.mp hmem with rfl | hts
    · exact songsSteps_minCovered_mono ts
        (optMinUpsert_covers_self r.apple_song_id r.song_title tbl)
    · exact ih (optMinUpsert r2.apple_song_id r2.song_title tbl) r hts

theorem artistsSteps_id_of_covered {rs : List Record} {tbl : List (String × String)}
    (h : ∀ r ∈ rs, MinCovered r.apple_artist_id r.artist_name tbl) :
    artistsSteps rs tbl = tbl :=
  foldl_id _ tbl rs fun r hr => optMinUpsert_id_of_covered (h r hr)

theorem songsSteps_id_of_covered {rs : List Record} {tbl : List (String × String)}
    (h : ∀ r ∈ rs, MinCovered r.apple_song_id r.song_title tbl) :
    songsSteps rs tbl = tbl :=
  foldl_id _ tbl rs fun r hr => optMinUpsert_id_of_covered (h r hr)

theorem artistsSteps_idem (rs : List Record) (tbl : List (String × String)) :
    artistsSteps rs (artistsSteps rs tbl) = artistsSteps rs tbl :=
  artistsSteps_id_of_covered (artistsSteps_covers rs tbl)

theorem songsSteps_idem (rs : List Record) (tbl : List (String × String)) :
    songsSteps rs (songsSteps rs tbl) = songsSteps rs tbl :=
  songsSteps_id_of_covered (songsSteps_covers rs tbl)

/-! ### Store projections and the preservation relation -/

theorem initStore_charts (store : Option DB) : (initStore store).charts = chartsOf store := by
  cases store <;> rfl

theorem initStore_artists (store : Option DB) : (initStore store).artists = artistsOf store := by
  cases store <;> rfl

theorem initStore_songs (store : Option DB) : (initStore store).songs = songsOf store := by
  cases store <;> rfl

theorem initStore_genres (store : Option DB) : (initStore store).genres = genresOf store := by
  cases store <;> rfl

theorem initStore_links (store : Option DB) : (initStore store).links = linksOf store := by
  cases store <;> rfl

theorem preserved_refl (s : DB) : Preserved s s :=
  ⟨⟨[], by simp⟩, ⟨[], by simp⟩, ⟨[], by simp⟩, nameShrink_refl s.artists, nameShrink_refl s.songs⟩

theorem preserved_trans {s t u : DB} (h1 : Preserved s t) (h2 : Preserved t u) :
    Preserved s u :=
  ⟨exists_append_trans h1.1 h2.1, exists_append_trans h1.2.1 h2.2.1,
    exists_append_trans h1.2.2.1 h2.2.2.1,
    nameShrink_trans h1.2.2.2.1 h2.2.2.2.1, nameShrink_trans h1.2.2.2.2 h2.2.2.2.2⟩

theorem optMinUpsert_nameShrink (idv namev : Option String) {tbl : List (String × String)}
    (hnd : (tbl.map Prod.fst).Nodup) : NameShrink tbl (optMinUpsert idv namev tbl) := by
  match idv, namev with
  | none, _ => exact nameShrink_refl tbl
  | some k, none => exact nameShrink_refl tbl
  | some k, some n =>
    cases hc : (k == "" || n == "") with
    | true =>
      simp only [optMinUpsert, hc, if_true]
      exact nameShrink_refl tbl
    | false =>
      simp only [optMinUpsert, hc, Bool.false_eq_true, if_false]
      exact minUpsert_nameShrink k n hnd

theorem optMinUpsert_keys_nodup (idv namev : Option String) {tbl : List (String × String)}
    (hnd : (tbl.map Prod.fst).Nodup) :
    ((optMinUpsert idv namev tbl).map Prod.fst).Nodup := by
  match idv, namev with
  | none, _ => exact hnd
  | some k, none => exact hnd
  | some k, some n =>
    cases hc : (k == "" || n == "") with
    | true =>
      simp only [optMinUpsert, hc, if_true]
      exact hnd
    | false =>
      simp only [optMinUpsert, hc, Bool.false_eq_true, if_false]
      exact keys_minUpsert_nodup k n hnd

theorem processRecord_wf {db : DB} (r : Record) (h : WFdb db) : WFdb (processRecord db r) :=
  ⟨optMinUpsert_keys_nodup r.apple_artist_id r.artist_name h.1,
    optMinUpsert_keys_nodup r.apple_song_id r.song_title h.2⟩

theorem processRecord_preserved {db : DB} (r : Record) (h : WFdb db) :
    Preserved db (processRecord db r) := by
  refine ⟨?_, ?_, ?_, ?_, ?_⟩
  · rw [processRecord_charts]
    exact chartStep_ext r db.charts
  · rw [processRecord_genres]
    exact recordGenres_ext r db.genres
  · exact processRecord_links_ext db r
  · rw [processRecord_artists]
    exact optMinUpsert_nameShrink r.apple_artist_id r.artist_name h.1
  · rw [processRecord_songs]
    exact optMinUpsert_nameShrink r.apple_song_id r.song_title h.2

theorem saveRecords_preserved (rs : List Record) {db : DB} (h : WFdb db) :
    Preserved db (saveRecords rs db) ∧ WFdb (saveRecords rs db) := by
  induction rs generalizing db with
  | nil => exact ⟨preserved_refl db, h⟩
  | cons r ts ih =>
    obtain ⟨hp, hw⟩ := ih (processRecord_wf r h)
    exact ⟨preserved_trans (processRecord_preserved r h) hp, hw⟩

/-! ### Rank bookkeeping in the flattening loop -/

theorem flattenResults_eq_from (region today : String) (l : List JVal) :
    flattenResults region today l = flattenFrom region today 0 l := rfl

theorem flattenFrom_cons_obj (region today : String) (n : Nat) (o : List (String × JVal))
    (t : List JVal) :
    flattenFrom region today n (JVal.obj o :: t) =
      mkSRecord region today n o :: flattenFrom region today (n + 1) t := rfl

theorem flattenFrom_length_le (region today : String) (l : List JVal) (n : Nat) :
    (flattenFrom region today n l).length ≤ l.length := by
  calc (flattenFrom region today n l).length
      ≤ (List.enumFrom n l).length := List.length_filterMap_le _ _
    _ = l.length := List.enumFrom_length

theorem flattenFrom_rank (region today : String) (l : List JVal)
    (hall : ∀ x ∈ l, ∃ o, x = JVal.obj o) :
    ∀ (n i : Nat) (rec : SRecord), (flattenFrom region today n l)[i]? = some rec →
      rec.rank = n + i + 1 := by
  induction l with
  | nil =>
    intro n i rec hrec
    simp [flattenFrom] at hrec
  | cons x t ih =>
    intro n i rec hrec
    have hall2 : ∀ y ∈ t, ∃ o2, y = JVal.obj o2 :=
      fun y hy => hall y (List.mem_cons_of_mem x hy)
    obtain ⟨o, rfl⟩ := hall x (List.mem_cons_self x t)
    rw [flattenFrom_cons_obj] at hrec
    cases i with
    | zero =>
      rw [List.getElem?_cons_zero] at hrec
      cases Option.some.inj hrec
      simp [mkSRecord]
    | succ j =>
      rw [List.getElem?_cons_succ] at hrec
      have := ih hall2 (n + 1) j rec hrec
      omega

/-! ### The claims -/

/-- C10: given an empty list of records, `save_music_data_to_db` returns
before the connection is opened: an absent database file stays absent (no
tables are created) and every table of an existing store keeps exactly its
contents. -/
theorem save_empty_batch_is_noop (store : Option DB) :
    save_music_data_to_db [] store = store := rfl

/-- C9: in the sheet publisher, every null or missing value read from the
store has been replaced by the empty string in `data_to_write`, the exact
rows handed to the destination worksheet, so no null cell is ever written. -/
theorem data_to_write_no_null (header : List String) (rows : List (List Cell)) :
    ∀ row ∈ data_to_write header rows, ∀ c ∈ row, c ≠ Cell.null := by
  intro row hrow c hc
  rcases List.mem_cons.mp hrow with rfl | hrows
  · obtain ⟨s, hs, rfl⟩ := List.mem_map.mp hc
    simp
  · simp only [fillna] at hrows
    obtain ⟨r0, hr0, rfl⟩ := List.mem_map.mp hrows
    obtain ⟨c0, hc0, rfl⟩ := List.mem_map.mp hc
    cases c0 <;> simp [fillCell]

/-- C9 witness: the cleaned form of a one-null-cell result row sits in the
prepared data and is not null. -/
theorem data_to_write_no_null_witness :
    ([Cell.str ""] ∈ data_to_write ["a"] [[Cell.null]]) ∧ Cell.str "" ≠ Cell.null := by
  have hmem : [Cell.str ""] ∈ data_to_write ["a"] [[Cell.null]] := by
    simp [data_to_write, fillna, fillCell]
  exact ⟨hmem, data_to_write_no_null ["a"] [[Cell.null]] [Cell.str ""] hmem
    (Cell.str "") (List.mem_singleton.mpr rfl)⟩

/-- C5: a response body without a feed object, or whose feed carries no
results list (the wrong shape at either level included), flattens to the
empty record list.  The embedding is a total function, matching the Python
code catching every exception inside this boundary. -/
theorem scrape_malformed_response_empty (region today : String) (body : JVal)
    (h : feedObj body = none ∨ resultsArr body = none) :
    scrape_apple_music_charts region today body = [] := by
  cases body with
  | null => rfl
  | bool b => rfl
  | num n => rfl
  | str s => rfl
  | arr xs => rfl
  | obj fields =>
    cases hf : getKey fields "feed" with
    | none => simp [scrape_apple_music_charts, hf]
    | some fv =>
      cases fv with
      | null => simp [scrape_apple_music_charts, hf]
      | bool b => simp [scrape_apple_music_charts, hf]
      | num n => simp [scrape_apple_music_charts, hf]
      | str s => simp [scrape_apple_music_charts, hf]
      | arr xs => simp [scrape_apple_music_charts, hf]
      | obj ff =>
        rcases h with h | h
        · exfalso
          simp [feedObj, hf] at h
        · cases hemp : ff.isEmpty with
          | true => simp [scrape_apple_music_charts, hf, hemp]
          | false =>
            cases hr : getKey ff "results" with
            | none => simp [scrape_apple_music_charts, hf, hemp, hr]
            | some rv =>
              cases rv with
              | null => simp [scrape_apple_music_charts, hf, hemp, hr]
              | bool b => simp [scrape_apple_music_charts, hf, hemp, hr]
              | num n => simp [scrape_apple_music_charts, hf, hemp, hr]
              | str s => simp [scrape_apple_music_charts, hf, hemp, hr]
              | obj o => simp [scrape_apple_music_charts, hf, hemp, hr]
              | arr rs =>
                exfalso
                simp [resultsArr, feedObj, hf, hr] at h

/-- C5 witness: an object body without a feed key yields the empty list. -/
theorem scrape_malformed_response_empty_witness :
    (feedObj (JVal.obj []) = none ∨ resultsArr (JVal.obj []) = none) ∧
      scrape_apple_music_charts "us" "2025-01-01" (JVal.obj []) = [] :=
  ⟨Or.inl rfl, scrape_malformed_response_empty "us" "2025-01-01" (JVal.obj []) (Or.inl rfl)⟩

/-- C2: two records carrying the same artist id under the names Zed and then
Abba, run through `save_music_data_to_db` in either order against a store not
yet holding that id, leave the stored artist name Abba: the lexicographic
minimum of the observed names, independent of processing order. -/
theorem artist_min_name_order_independent (store : Option DB) (r1 r2 : Record) (a : String)
    (ha : (a == "") = false)
    (h1i : r1.apple_artist_id = some a) (h1n : r1.artist_name = some "Zed")
    (h2i : r2.apple_artist_id = some a) (h2n : r2.artist_name = some "Abba")
    (hfresh : (artistsOf store).lookup a = none) :
    (artistsOf (save_music_data_to_db [r1, r2] store)).lookup a = some "Abba" ∧
    (artistsOf (save_music_data_to_db [r2, r1] store)).lookup a = some "Abba" := by
  have htbl : (initStore store).artists.lookup a = none := by
    rw [initStore_artists]
    exact hfresh
  have hz : ("Zed" == "") = false := rfl
  have hab : ("Abba" == "") = false := rfl
  constructor
  · have e1 : artistsOf (save_music_data_to_db [r1, r2] store) =
        optMinUpsert r2.apple_artist_id r2.artist_name
          (optMinUpsert r1.apple_artist_id r1.artist_name (initStore store).artists) := by
      show (saveRecords [r1, r2] (initStore store)).artists = _
      rw [saveRecords_artists]
      rfl
    rw [e1, h1i, h1n, h2i, h2n]
    simp only [optMinUpsert, ha, hz, hab, Bool.or_false, Bool.false_eq_true, if_false]
    have hinner : minUpsert (initStore store).artists a "Zed" =
        (initStore store).artists ++ [(a, "Zed")] := by
      simp only [minUpsert, htbl]
    rw [hinner]
    have hl1 : ((initStore store).artists ++ [(a, "Zed")]).lookup a = some "Zed" := by
      rw [lookup_append_none htbl, lookup_cons]
      simp
    have hlt : pyLt "Abba" "Zed" = true := by decide
    simp only [minUpsert, hl1, hlt, if_true]
    exact lookup_updAll_self "Abba" hl1
  · have e2 : artistsOf (save_music_data_to_db [r2, r1] store) =
        optMinUpsert r1.apple_artist_id r1.artist_name
          (optMinUpsert r2.apple_artist_id r2.artist_name (initStore store).artists) := by
      show (saveRecords [r2, r1] (initStore store)).artists = _
      rw [saveRecords_artists]
      rfl
    rw [e2, h1i, h1n, h2i, h2n]
    simp only [optMinUpsert, ha, hz, hab, Bool.or_false, Bool.false_eq_true, if_false]
    have hinner : minUpsert (initStore store).artists a "Abba" =
        (initStore store).artists ++ [(a, "Abba")] := by
      simp only [minUpsert, htbl]
    rw [hinner]
    have hl2 : ((initStore store).artists ++ [(a, "Abba")]).lookup a = some "Abba" := by
      rw [lookup_append_none htbl, lookup_cons]
      simp
    have hlt : pyLt "Zed" "Abba" = false := by decide
    simp only [minUpsert, hl2, hlt, Bool.false_eq_true, if_false]

/-- C2 witness: the two concrete records on a fresh store, in both orders. -/
theorem artist_min_name_order_independent_witness :
    ((artistsOf (none : Option DB)).lookup "a1" = none) ∧
    ((artistsOf (save_music_data_to_db [zedRecord, abbaRecord] none)).lookup "a1" =
        some "Abba" ∧
      (artistsOf (save_music_data_to_db [abbaRecord, zedRecord] none)).lookup "a1" =
        some "Abba") :=
  ⟨rfl, artist_min_name_order_independent none zedRecord abbaRecord "a1" rfl
    rfl rfl rfl rfl rfl⟩

theorem processTag_badtag (sid : String) (st : List GenreRow × List (String × Int))
    (tag : GenreTag) (gs : String) (hgi : tag.genreId = some gs)
    (hbad : pythonInt gs = none) : processTag sid st (some tag) = st := by
  obtain ⟨gi, nv, u⟩ := tag
  simp only at hgi
  subst hgi
  cases nv with
  | none => rfl
  | some nm =>
    cases hc : (gs == "" || nm == "") with
    | true => simp [processTag, hc]
    | false => simp [processTag, hc, hbad]

theorem processRecord_badtag (db : DB) (r : Record) (pre post : List (Option GenreTag))
    (tag : GenreTag) (gs : String)
    (hpg : r.parsed_genres = some (pre ++ some tag :: post))
    (hgi : tag.genreId = some gs) (hbad : pythonInt gs = none) :
    processRecord db r = processRecord db { r with parsed_genres := some (pre ++ post) } := by
  have htags : recordTagsFold r (db.genres, db.links) =
      recordTagsFold { r with parsed_genres := some (pre ++ post) } (db.genres, db.links) := by
    cases hs : r.apple_song_id with
    | none =>
      have hs2 : ({ r with parsed_genres := some (pre ++ post) } : Record).apple_song_id =
        none := hs
      simp [recordTagsFold, hs, hs2]
    | some sid =>
      have hs2 : ({ r with parsed_genres := some (pre ++ post) } : Record).apple_song_id =
        some sid := hs
      have hpg2 : ({ r with parsed_genres := some (pre ++ post) } : Record).parsed_genres =
        some (pre ++ post) := rfl
      cases hse : (sid == "") with
      | true => simp [recordTagsFold, hs, hs2, hpg, hpg2, hse]
      | false =>
        simp only [recordTagsFold, hs, hs2, hpg, hpg2, hse, Bool.false_eq_true, if_false]
        rw [List.foldl_append, List.foldl_append, List.foldl_cons,
          processTag_badtag sid _ tag gs hgi hbad]
  unfold processRecord
  rw [htags]
  rfl

/-- C6: a genre tag whose id string does not parse as an integer contributes
no Genres row and no MusicGenres row, and the rest of the batch (the other
tags of the same record included) is processed exactly as if the bad tag
were absent. -/
theorem bad_genre_tag_skipped (store : Option DB) (b1 b2 : List Record) (r : Record)
    (pre post : List (Option GenreTag)) (tag : GenreTag) (gs : String)
    (hpg : r.parsed_genres = some (pre ++ some tag :: post))
    (hgi : tag.genreId = some gs) (hbad : pythonInt gs = none) :
    save_music_data_to_db (b1 ++ r :: b2) store =
      save_music_data_to_db (b1 ++ { r with parsed_genres := some (pre ++ post) } :: b2)
        store := by
  have hfold : ∀ d : DB, saveRecords (b1 ++ r :: b2) d =
      saveRecords (b1 ++ { r with parsed_genres := some (pre ++ post) } :: b2) d := by
    intro d
    unfold saveRecords
    rw [List.foldl_append, List.foldl_append, List.foldl_cons, List.foldl_cons,
      processRecord_badtag (List.foldl processRecord d b1) r pre post tag gs hpg hgi hbad]
  have hne1 : (b1 ++ r :: b2).isEmpty = false := by cases b1 <;> rfl
  have hne2 : (b1 ++ { r with parsed_genres := some (pre ++ post) } :: b2).isEmpty = false := by
    cases b1 <;> rfl
  simp only [save_music_data_to_db, hne1, hne2, Bool.false_eq_true, if_false]
  rw [hfold]

/-- C6 witness: a record whose single genre tag has the unparseable id
string abc saves exactly like the same record with no genre tags. -/
theorem bad_genre_tag_skipped_witness :
    pythonInt "abc" = none ∧
      save_music_data_to_db ([] ++ badTagRecord :: []) none =
        save_music_data_to_db
          ([] ++ { badTagRecord with parsed_genres := some ([] ++ []) } :: []) none :=
  ⟨by decide, bad_genre_tag_skipped none [] [] badTagRecord [] []
    { genreId := some "abc", name := some "Pop", url := none } "abc" rfl rfl (by decide)⟩

theorem gConf_exists {g : List GenreRow} {gid : Int} {nm : String}
    (h : gConf g gid nm = true) : ∃ row ∈ g, row.gid = gid ∨ row.name = nm := by
  simp only [gConf, List.any_eq_true, Bool.or_eq_true, beq_iff_eq] at h
  exact h

theorem genres_conflict_after_save (store : Option DB) (b1 b2 : List Record) (r : Record)
    (sid : String) (tags : List (Option GenreTag)) (tag : GenreTag) (gs nm : String)
    (gid : Int) (hsid : r.apple_song_id = some sid) (hs : (sid == "") = false)
    (hpg : r.parsed_genres = some tags) (hmem : some tag ∈ tags)
    (hgi : tag.genreId = some gs) (hnm : tag.name = some nm)
    (hc : (gs == "" || nm == "") = false) (hpi : pythonInt gs = some gid) :
    ∃ row ∈ genresOf (save_music_data_to_db (b1 ++ r :: b2) store),
      row.gid = gid ∨ row.name = nm := by
  have hne : (b1 ++ r :: b2).isEmpty = false := by cases b1 <;> rfl
  have hg : genresOf (save_music_data_to_db (b1 ++ r :: b2) store) =
      genresSteps (b1 ++ r :: b2) (initStore store).genres := by
    simp only [save_music_data_to_db, hne, Bool.false_eq_true, if_false]
    show (saveRecords (b1 ++ r :: b2) (initStore store)).genres = _
    rw [saveRecords_genres]
  rw [hg]
  have hrmem : r ∈ b1 ++ r :: b2 := List.mem_append_right b1 (List.mem_cons_self r b2)
  have hcov := genresSteps_covers (b1 ++ r :: b2) (initStore store).genres r hrmem
  exact gConf_exists (hcov sid tags tag gs nm gid hsid hs hpg hmem hgi hnm hc hpi)

/-- C7 counterexample: genre insertion is not conditioned only on the tag
itself.  A record whose genre tag has a valid id (15) and name (Pop) but
whose apple song id is absent produces no Genres row, because the guard at
line 249 requires a truthy song id before any genre of the record is
processed. -/
theorem genre_insert_counterexample :
    orphanTagRecord.apple_song_id = none ∧
    orphanTagRecord.parsed_genres =
      some [some { genreId := some "15", name := some "Pop", url := none }] ∧
    pythonInt "15" = some 15 ∧
    genresOf (save_music_data_to_db [orphanTagRecord] none) = [] :=
  ⟨rfl, rfl, by decide, by decide⟩

/-- C7 (amended): for every record with a truthy apple song id and list-typed
parsed genres, and every dict genre tag on it with truthy id and name whose
id parses as an integer, the run leaves a Genres row carrying that id or that
name: the insert is attempted unconditionally on the sentinel and ignored
only when the id (primary key) or the name (UNIQUE column) already names a
row.  Unlike the original claim, genre insertion is additionally conditioned
on the record having a truthy song id and a list-valued genre field. -/
theorem genre_insert_for_processed_tag (store : Option DB) (b1 b2 : List Record) (r : Record)
    (sid : String) (tags : List (Option GenreTag)) (tag : GenreTag) (gs nm : String)
    (gid : Int) (hsid : r.apple_song_id = some sid) (hs : (sid == "") = false)
    (hpg : r.parsed_genres = some tags) (hmem : some tag ∈ tags)
    (hgi : tag.genreId = some gs) (hnm : tag.name = some nm)
    (hc : (gs == "" || nm == "") = false) (hpi : pythonInt gs = some gid) :
    ∃ row ∈ genresOf (save_music_data_to_db (b1 ++ r :: b2) store),
      row.gid = gid ∨ row.name = nm :=
  genres_conflict_after_save store b1 b2 r sid tags tag gs nm gid hsid hs hpg hmem hgi hnm
    hc hpi

/-- C7 witness: a record with song id s5 and tag (21, Rock) on an absent
store. -/
theorem genre_insert_for_processed_tag_witness :
    pythonInt "21" = some 21 ∧
      ∃ row ∈ genresOf (save_music_data_to_db ([] ++ normalTagRecord :: []) none),
        row.gid = 21 ∨ row.name = "Rock" :=
  ⟨by decide, genre_insert_for_processed_tag none [] [] normalTagRecord "s5"
    [mkTag "21" "Rock"] { genreId := some "21", name := some "Rock", url := none }
    "21" "Rock" 21 rfl (by decide) rfl (List.mem_singleton.mpr rfl) rfl rfl (by decide)
    (by decide)⟩

/-- C4 counterexample: the sentinel is not recorded whenever a tag with id 34
and a name is encountered.  A record that carries the tag (34, Music) but no
song id is skipped by the guard at line 249, leaving the Genres table without
the sentinel row. -/
theorem sentinel_counterexample :
    sentinelOrphan.parsed_genres =
      some [some { genreId := some "34", name := some "Music", url := none }] ∧
    pythonInt "34" = some EXCLUDE_GENRE_ID ∧
    genresOf (save_music_data_to_db [sentinelOrphan] none) = [] :=
  ⟨rfl, by decide, by decide⟩

/-- C4 (amended): no run of `save_music_data_to_db` ever adds a MusicGenres
row with the sentinel genre id 34 (every link of the result is pre-existing
or carries a different id); and whenever a record with a truthy song id and
list-typed genres carries a tag with id parsing to 34 and a truthy name, the
run leaves a Genres row with id 34 or one already holding that name (the
insert is attempted and ignored only on a primary key or unique name
conflict).  Unlike the original claim, a tag encountered on a record without
a truthy song id is not recorded. -/
theorem sentinel_recorded_never_linked (store : Option DB) (b1 b2 : List Record) (r : Record)
    (sid : String) (tags : List (Option GenreTag)) (tag : GenreTag) (gs nm : String)
    (hsid : r.apple_song_id = some sid) (hs : (sid == "") = false)
    (hpg : r.parsed_genres = some tags) (hmem : some tag ∈ tags)
    (hgi : tag.genreId = some gs) (hnm : tag.name = some nm)
    (hc : (gs == "" || nm == "") = false) (hpi : pythonInt gs = some EXCLUDE_GENRE_ID) :
    (∀ (records : List Record) (p : String × Int),
        p ∈ linksOf (save_music_data_to_db records store) →
        p ∈ linksOf store ∨ p.2 ≠ EXCLUDE_GENRE_ID) ∧
    ∃ row ∈ genresOf (save_music_data_to_db (b1 ++ r :: b2) store),
      row.gid = EXCLUDE_GENRE_ID ∨ row.name = nm := by
  constructor
  · intro records p hp
    cases records with
    | nil => exact Or.inl hp
    | cons r0 rest =>
      have hp2 : p ∈ (saveRecords (r0 :: rest) (initStore store)).links := hp
      rcases saveRecords_links_mem hp2 with hm | hm
      · rw [initStore_links] at hm
        exact Or.inl hm
      · exact Or.inr hm
  · exact genres_conflict_after_save store b1 b2 r sid tags tag gs nm EXCLUDE_GENRE_ID
      hsid hs hpg hmem hgi hnm hc hpi

/-- C4 witness: a record with song id s4 carrying the sentinel tag on an
absent store. -/
theorem sentinel_recorded_never_linked_witness :
    pythonInt "34" = some EXCLUDE_GENRE_ID ∧
      ((∀ (records : List Record) (p : String × Int),
          p ∈ linksOf (save_music_data_to_db records none) →
          p ∈ linksOf none ∨ p.2 ≠ EXCLUDE_GENRE_ID) ∧
        ∃ row ∈ genresOf (save_music_data_to_db ([] ++ sentinelSongRecord :: []) none),
          row.gid = EXCLUDE_GENRE_ID ∨ row.name = "Music") :=
  ⟨by decide, sentinel_recorded_never_linked none [] [] sentinelSongRecord "s4"
    [mkTag "34" "Music"] { genreId := some "34", name := some "Music", url := none }
    "34" "Music" rfl (by decide) rfl (List.mem_singleton.mpr rfl) rfl rfl (by decide)
    (by decide)⟩

/-- C3 counterexample: with results [null, object], the single kept record
sits at index 0 of the returned list but has rank 2, because the skipped
non-dict entry at position 0 still consumed rank 1.  So the i-th kept record
does not in general have rank i + 1. -/
theorem scrape_rank_counterexample :
    ¬ (∀ (i : Nat) (h : i < (scrape_apple_music_charts "us" "2025-01-01"
          (JVal.obj skewFields)).length),
        ((scrape_apple_music_charts "us" "2025-01-01" (JVal.obj skewFields)).get
          ⟨i, h⟩).rank = i + 1) := by
  intro hall
  have hpf : 0 < (scrape_apple_music_charts "us" "2025-01-01"
      (JVal.obj skewFields)).length := by decide
  have h0 := hall 0 hpf
  have h2 : ((scrape_apple_music_charts "us" "2025-01-01" (JVal.obj skewFields)).get
      ⟨0, hpf⟩).rank = 2 := rfl
  rw [h0] at h2
  exact absurd h2 (by decide)

theorem flattenFrom_mem_lift (region today : String) (x : JVal) (t : List JVal) (n : Nat)
    (rec : SRecord)
    (hstep : flattenFrom region today n (x :: t) = flattenFrom region today (n + 1) t)
    (h : rec ∈ flattenFrom region today n (x :: t))
    (ih : ∀ rec2 ∈ flattenFrom region today (n + 1) t,
      ∃ j o, t[j]? = some (JVal.obj o) ∧ rec2 = mkSRecord region today (n + 1 + j) o) :
    ∃ j o, (x :: t)[j]? = some (JVal.obj o) ∧ rec = mkSRecord region today (n + j) o := by
  rw [hstep] at h
  obtain ⟨j, o, hj, hrec⟩ := ih rec h
  refine ⟨j + 1, o, by simpa using hj, ?_⟩
  have he : n + (j + 1) = n + 1 + j := by omega
  rw [he]
  exact hrec

theorem flattenFrom_mem (region today : String) :
    ∀ (l : List JVal) (n : Nat) (rec : SRecord), rec ∈ flattenFrom region today n l →
      ∃ j o, l[j]? = some (JVal.obj o) ∧ rec = mkSRecord region today (n + j) o := by
  intro l
  induction l with
  | nil =>
    intro n rec h
    simp [flattenFrom] at h
  | cons x t ih =>
    intro n rec h
    cases x with
    | obj o =>
      rw [flattenFrom_cons_obj] at h
      rcases List.mem_cons.mp h with rfl | ht
      · exact ⟨0, o, by simp, by simp⟩
      · obtain ⟨j, o2, hj, hrec⟩ := ih (n + 1) rec ht
        refine ⟨j + 1, o2, by simpa using hj, ?_⟩
        have he : n + (j + 1) = n + 1 + j := by omega
        rw [he]
        exact hrec
    | null =>
      exact flattenFrom_mem_lift region today _ t n rec rfl h fun rec2 h2 => ih (n + 1) rec2 h2
    | bool b =>
      exact flattenFrom_mem_lift region today _ t n rec rfl h fun rec2 h2 => ih (n + 1) rec2 h2
    | num m =>
      exact flattenFrom_mem_lift region today _ t n rec rfl h fun rec2 h2 => ih (n + 1) rec2 h2
    | str s =>
      exact flattenFrom_mem_lift region today _ t n rec rfl h fun rec2 h2 => ih (n + 1) rec2 h2
    | arr xs =>
      exact flattenFrom_mem_lift region today _ t n rec rfl h fun rec2 h2 => ih (n + 1) rec2 h2

theorem scrape_shape (region today : String) (body : JVal) :
    scrape_apple_music_charts region today body = [] ∨
    ∃ results, resultsArr body = some results ∧
      scrape_apple_music_charts region today body =
        flattenFrom region today 0 (results.take 100) := by
  cases body with
  | null => exact Or.inl rfl
  | bool b => exact Or.inl rfl
  | num n => exact Or.inl rfl
  | str s => exact Or.inl rfl
  | arr xs => exact Or.inl rfl
  | obj fields =>
    cases hf : getKey fields "feed" with
    | none => exact Or.inl (by simp [scrape_apple_music_charts, hf])
    | some fv =>
      cases fv with
      | null => exact Or.inl (by simp [scrape_apple_music_charts, hf])
      | bool b => exact Or.inl (by simp [scrape_apple_music_charts, hf])
      | num n => exact Or.inl (by simp [scrape_apple_music_charts, hf])
      | str s => exact Or.inl (by simp [scrape_apple_music_charts, hf])
      | arr xs => exact Or.inl (by simp [scrape_apple_music_charts, hf])
      | obj ff =>
        cases hemp : ff.isEmpty with
        | true => exact Or.inl (by simp [scrape_apple_music_charts, hf, hemp])
        | false =>
          cases hr : getKey ff "results" with
          | none => exact Or.inl (by simp [scrape_apple_music_charts, hf, hemp, hr])
          | some rv =>
            cases rv with
            | null => exact Or.inl (by simp [scrape_apple_music_charts, hf, hemp, hr])
            | bool b => exact Or.inl (by simp [scrape_apple_music_charts, hf, hemp, hr])
            | num n => exact Or.inl (by simp [scrape_apple_music_charts, hf, hemp, hr])
            | str s => exact Or.inl (by simp [scrape_apple_music_charts, hf, hemp, hr])
            | obj o => exact Or.inl (by simp [scrape_apple_music_charts, hf, hemp, hr])
            | arr results =>
              cases hres : results.isEmpty with
              | true =>
                exact Or.inl (by simp [scrape_apple_music_charts, hf, hemp, hr, hres])
              | false =>
                refine Or.inr ⟨results, ?_, ?_⟩
                · simp [resultsArr, feedObj, hf, hr]
                · simp [scrape_apple_music_charts, hf, hemp, hr, hres,
                    flattenResults_eq_from]

/-- C3 (amended): for every response body, `scrape_apple_music_charts`
returns at most 100 records; every kept record was built from the JSON
object sitting at some position j < 100 of the results list and has the form
`mkSRecord region today j o`, so its rank is j + 1, the 1-based position of
its entry in results; and when every considered entry is an object (none
skipped), the i-th kept record has rank i + 1. -/
theorem scrape_at_most_100_and_ranks (region today : String) (body : JVal) :
    (scrape_apple_music_charts region today body).length ≤ 100 ∧
    (∀ rec ∈ scrape_apple_music_charts region today body,
      ∃ results j o, resultsArr body = some results ∧ j < 100 ∧
        results[j]? = some (JVal.obj o) ∧ rec = mkSRecord region today j o) ∧
    (∀ results, resultsArr body = some results →
      (∀ x ∈ results.take 100, ∃ o, x = JVal.obj o) →
      ∀ (i : Nat) (h : i < (scrape_apple_music_charts region today body).length),
        ((scrape_apple_music_charts region today body).get ⟨i, h⟩).rank = i + 1) := by
  rcases scrape_shape region today body with hz | ⟨results, hres, hsc⟩
  · rw [hz]
    refine ⟨by simp, ?_, ?_⟩
    · intro rec hrec
      exact absurd hrec (List.not_mem_nil rec)
    · intro results2 hres2 hall i h
      exact absurd h (Nat.not_lt_zero i)
  · rw [hsc]
    have hlen : (results.take 100).length ≤ 100 := by
      rw [List.length_take]
      exact min_le_left 100 results.length
    refine ⟨?_, ?_, ?_⟩
    · calc (flattenFrom region today 0 (results.take 100)).length
          ≤ (results.take 100).length := flattenFrom_length_le region today _ 0
        _ ≤ 100 := hlen
    · intro rec hrec
      obtain ⟨j, o, hj, hrecv⟩ := flattenFrom_mem region today (results.take 100) 0 rec hrec
      obtain ⟨hjl, h2⟩ := List.getElem?_eq_some_iff.mp hj
      have hjlt : j < 100 := lt_of_lt_of_le hjl hlen
      refine ⟨results, j, o, hres, hjlt, ?_, ?_⟩
      · rw [← List.getElem?_take_of_lt hjlt]
        exact hj
      · simpa using hrecv
    · intro results2 hres2 hall i h
      have hre : results2 = results := by
        rw [hres] at hres2
        exact (Option.some.inj hres2).symm
      subst hre
      have hrec : (flattenFrom region today 0 (results2.take 100))[i]? =
          some ((flattenFrom region today 0 (results2.take 100)).get ⟨i, h⟩) :=
        List.getElem?_eq_getElem h
      have hrank := flattenFrom_rank region today (results2.take 100) hall 0 i _ hrec
      simpa using hrank

/-- C3 witness: a feed of two object entries.  The bound holds, the first
record is kept from position 0 of results, and the ranks are 1 and 2. -/
theorem scrape_at_most_100_and_ranks_witness :
    resultsArr (JVal.obj okFields) = some okResults ∧
    (∀ x ∈ okResults.take 100, ∃ o, x = JVal.obj o) ∧
    mkSRecord "us" "2025-06-01" 0 [] ∈
      scrape_apple_music_charts "us" "2025-06-01" (JVal.obj okFields) ∧
    ((scrape_apple_music_charts "us" "2025-06-01" (JVal.obj okFields)).length ≤ 100 ∧
      (∃ results j o, resultsArr (JVal.obj okFields) = some results ∧ j < 100 ∧
        results[j]? = some (JVal.obj o) ∧
        mkSRecord "us" "2025-06-01" 0 [] = mkSRecord "us" "2025-06-01" j o) ∧
      ∀ (i : Nat) (h : i < (scrape_apple_music_charts "us" "2025-06-01"
          (JVal.obj okFields)).length),
        ((scrape_apple_music_charts "us" "2025-06-01" (JVal.obj okFields)).get
          ⟨i, h⟩).rank = i + 1) := by
  have hall : ∀ x ∈ okResults.take 100, ∃ o, x = JVal.obj o := by
    intro x hx
    have hx2 : x ∈ okResults := List.take_subset 100 okResults hx
    simp only [okResults, List.mem_cons, List.mem_singleton] at hx2
    rcases hx2 with rfl | rfl | hx3
    · exact ⟨[], rfl⟩
    · exact ⟨[], rfl⟩
    · cases hx3
  have hmem : mkSRecord "us" "2025-06-01" 0 [] ∈
      scrape_apple_music_charts "us" "2025-06-01" (JVal.obj okFields) := by
    show mkSRecord "us" "2025-06-01" 0 [] ∈
      [mkSRecord "us" "2025-06-01" 0 [], mkSRecord "us" "2025-06-01" 1 []]
    exact List.mem_cons_self _ _
  have hthm := scrape_at_most_100_and_ranks "us" "2025-06-01" (JVal.obj okFields)
  exact ⟨rfl, hall, hmem, hthm.1, hthm.2.1 (mkSRecord "us" "2025-06-01" 0 []) hmem,
    hthm.2.2 okResults rfl hall⟩

/-- C1 counterexample: running the writer twice on the byte-identical batch
is not a no-op.  In run one, the second record fails to link song s2 to
genre 7: its genre insert (7, Pop) was ignored on the unique-name conflict
with (5, Pop), so the link insert hit the foreign key check and was dropped.
The third record then inserts (7, Rock).  The second run finds genre 7
present and inserts the new MusicGenres row (s2, 7), leaving the store in a
different state than after one run. -/
theorem save_twice_counterexample :
    linksOf (save_music_data_to_db idemBatch none) = [("s1", 5), ("s3", 7)] ∧
    linksOf (save_music_data_to_db idemBatch (save_music_data_to_db idemBatch none)) =
      [("s1", 5), ("s3", 7), ("s2", 7)] ∧
    save_music_data_to_db idemBatch (save_music_data_to_db idemBatch none) ≠
      save_music_data_to_db idemBatch none := by
  refine ⟨by decide, by decide, ?_⟩
  intro h
  have h1 : linksOf (save_music_data_to_db idemBatch none) = [("s1", 5), ("s3", 7)] := by
    decide
  have h2 : linksOf (save_music_data_to_db idemBatch
      (save_music_data_to_db idemBatch none)) = [("s1", 5), ("s3", 7), ("s2", 7)] := by
    decide
  rw [h, h1] at h2
  exact absurd h2 (by decide)

/-- C1 (amended): a second run of `save_music_data_to_db` on the
byte-identical batch inserts no new MusicTop100 or Genres rows and leaves
the Artists and Songs tables exactly unchanged.  (The counterexample forces
the MusicGenres table out of the claim: a second run may add a link whose
first insertion failed the foreign key check because the genre row appeared
only later in the batch.) -/
theorem save_twice_tables_stable (records : List Record) (store : Option DB) :
    chartsOf (save_music_data_to_db records (save_music_data_to_db records store)) =
      chartsOf (save_music_data_to_db records store) ∧
    genresOf (save_music_data_to_db records (save_music_data_to_db records store)) =
      genresOf (save_music_data_to_db records store) ∧
    artistsOf (save_music_data_to_db records (save_music_data_to_db records store)) =
      artistsOf (save_music_data_to_db records store) ∧
    songsOf (save_music_data_to_db records (save_music_data_to_db records store)) =
      songsOf (save_music_data_to_db records store) := by
  cases records with
  | nil => exact ⟨rfl, rfl, rfl, rfl⟩
  | cons r rest =>
    have h1 : save_music_data_to_db (r :: rest) store =
        some (saveRecords (r :: rest) (initStore store)) := rfl
    have h2 : save_music_data_to_db (r :: rest)
        (some (saveRecords (r :: rest) (initStore store))) =
        some (saveRecords (r :: rest) (saveRecords (r :: rest) (initStore store))) := rfl
    rw [h1, h2]
    refine ⟨?_, ?_, ?_, ?_⟩
    · show (saveRecords (r :: rest) (saveRecords (r :: rest) (initStore store))).charts =
        (saveRecords (r :: rest) (initStore store)).charts
      rw [saveRecords_charts, saveRecords_charts, chartsSteps_idem]
    · show (saveRecords (r :: rest) (saveRecords (r :: rest) (initStore store))).genres =
        (saveRecords (r :: rest) (initStore store)).genres
      rw [saveRecords_genres, saveRecords_genres, genresSteps_idem]
    · show (saveRecords (r :: rest) (saveRecords (r :: rest) (initStore store))).artists =
        (saveRecords (r :: rest) (initStore store)).artists
      rw [saveRecords_artists, saveRecords_artists, artistsSteps_idem]
    · show (saveRecords (r :: rest) (saveRecords (r :: rest) (initStore store))).songs =
        (saveRecords (r :: rest) (initStore store)).songs
      rw [saveRecords_songs, saveRecords_songs, songsSteps_idem]

/-- C8: on a well-formed store (unique artist and song keys, as the SQLite
primary keys guarantee), a run of the writer deletes nothing: the
MusicTop100, Genres and MusicGenres tables are only appended to, and every
pre-existing Artists and Songs row keeps its key and changes at most its
name, only ever to a lexicographically smaller value. -/
theorem save_never_deletes (records : List Record) (s : DB) (hwf : WFdb s) :
    Preserved s (initStore (save_music_data_to_db records (some s))) := by
  cases records with
  | nil => exact preserved_refl s
  | cons r rest =>
    show Preserved s (saveRecords (r :: rest) s)
    exact (saveRecords_preserved (r :: rest) hwf).1

/-- C8 witness: a store holding one artist and one song, run on a batch of
one record. -/
theorem save_never_deletes_witness :
    WFdb smallDB ∧
      Preserved smallDB (initStore (save_music_data_to_db [abbaRecord] (some smallDB))) := by
  have hwf : WFdb smallDB := by
    constructor <;> decide
  exact ⟨hwf, save_never_deletes [abbaRecord] smallDB hwf⟩
